import Mathlib

/-!
Shallow embedding of the job-discovery scan service of the `job-auto-apply`
repository (`backend/services/resume-tailor/server.py` together with the
persistence schema of `backend/services/resume-tailor/database.py`).

Strings are modelled as lists of characters; timestamps as natural numbers;
the relational store as in-memory lists of records; the external
collaborators (content fetcher, extraction agent, scoring agent) as an
explicit environment of pure functions, with fallible calls returning
`Except`.  The concurrent orchestration (`asyncio.gather` over the source
tasks, and the per-source job pool) is embedded by its observable sequential
semantics: `asyncio.gather` returns results in argument order, the
per-source persistence loop of the code is itself sequential, and each
job's scrape/score outcome is an independent input from the environment.
-/

/-- Character strings, modelled as lists of characters. -/
abbrev Str := List Char

namespace JobScan

/-! ## URL resolution (`resolve_job_url`, `server.py` lines 28-53) -/

/-- `job_url.startswith('http://') or job_url.startswith('https://')`. -/
def hasHttpScheme (u : Str) : Bool :=
  List.isPrefixOf "http://".data u || List.isPrefixOf "https://".data u

/-- Characters that terminate the network-location component in
`urllib.parse.urlparse`. -/
def isNetlocEnd (c : Char) : Bool := c == '/' || c == '?' || c == '#'

/-- The scheme/netloc extraction performed by `urlparse(source_url)` for URLs
of the shape `scheme://netloc...` (CPython lower-cases the scheme); on inputs
without a `://` separator both components come back empty, as they do for
the path-only URLs `urlparse` would give no netloc for. -/
def urlSchemeNetloc (u : Str) : Str × Str :=
  let scheme := u.takeWhile (fun c => !(c == ':'))
  let rest := u.dropWhile (fun c => !(c == ':'))
  if List.isPrefixOf "://".data rest then
    (scheme.map Char.toLower, (rest.drop 3).takeWhile (fun c => !(isNetlocEnd c)))
  else ([], [])

/-- Valid scheme characters of `urllib.parse`. -/
def isSchemeChar (c : Char) : Bool := c.isAlphanum || c == '+' || c == '-' || c == '.'

/-- Scheme detection of `urlparse` on a reference URL: `s:rest` where `s` is a
non-empty valid scheme name starting with a letter. -/
def refSplitScheme (u : Str) : Option (Str × Str) :=
  let s := u.takeWhile (fun c => !(c == ':'))
  let rest := u.dropWhile (fun c => !(c == ':'))
  match rest with
  | ':' :: r =>
    match s with
    | [] => none
    | c :: _ => if c.isAlpha && s.all isSchemeChar then some (s.map Char.toLower, r) else none
  | _ => none

/-- Prepend a character onto the first piece of a split. -/
def consHead (c : Char) : List Str → List Str
  | [] => [[c]]
  | a :: tail => (c :: a) :: tail

/-- Python `str.split('/')`. -/
def splitSlash : Str → List Str
  | [] => [[]]
  | c :: rest =>
    if c == '/' then [] :: splitSlash rest else consHead c (splitSlash rest)

/-- Python `'/'.join(...)`. -/
def joinSlash : List Str → Str
  | [] => []
  | [s] => s
  | s :: rest => s ++ '/' :: joinSlash rest

/-- The middle-segment cleanup of CPython `urljoin`
(`segments[1:-1] = filter(None, segments[1:-1])`): empty segments are dropped
from every position except the first and the last. -/
def squeezeMiddle : List Str → List Str
  | [] => []
  | a :: rest => a :: squeezeAux rest
where
  squeezeAux : List Str → List Str
  | [] => []
  | [z] => [z]
  | s :: rest => if s.isEmpty then squeezeAux rest else s :: squeezeAux rest

/-- The `..`/`.` resolution loop of CPython `urljoin` (a `..` popping from an
empty stack is ignored). -/
def resolveSegLoop (acc : List Str) : List Str → List Str
  | [] => acc
  | seg :: rest =>
    if seg == "..".data then resolveSegLoop acc.dropLast rest
    else if seg == ".".data then resolveSegLoop acc rest
    else resolveSegLoop (acc ++ [seg]) rest

/-- Split at the first occurrence of `c`: `(before, rest-after-c?)`. -/
def splitFirst (c : Char) (s : Str) : Str × Option Str :=
  match s.dropWhile (fun x => !(x == c)) with
  | [] => (s, none)
  | _ :: r => (s.takeWhile (fun x => !(x == c)), some r)

/-- The fragment/query split of `urlparse` on a scheme-less, netloc-less
reference body (fragment is split off first, then the query). -/
def splitRefBody (u : Str) : Str × Option Str × Option Str :=
  let p1 := splitFirst '#' u
  let p2 := splitFirst '?' p1.1
  (p2.1, p2.2, p1.2)

/-- CPython `urllib.parse.urljoin`, specialised to a base of the shape
`bscheme://bnetloc/` — the only shape `resolve_job_url` calls it with
(`urljoin(base_url + '/', job_url)`).  `params` (`;`) splitting and the
`uses_relative` scheme table are not modelled: the base scheme is `http` or
`https` in every use, and both are in the table. -/
def pyUrljoinRooted (bscheme bnetloc : Str) (url : Str) : Str :=
  if url.isEmpty then bscheme ++ "://".data ++ bnetloc ++ "/".data
  else
    let parsedScheme := match refSplitScheme url with
      | some sr => (sr.1, sr.2)
      | none => (bscheme, url)
    let scheme := parsedScheme.1
    let body := parsedScheme.2
    if !(scheme == bscheme) then url
    else
      let netloc :=
        if List.isPrefixOf "//".data body then
          (body.drop 2).takeWhile (fun c => !(isNetlocEnd c))
        else []
      let body2 :=
        if List.isPrefixOf "//".data body then
          (body.drop 2).dropWhile (fun c => !(isNetlocEnd c))
        else body
      let pqf := splitRefBody body2
      let path := pqf.1
      let tail :=
        (match pqf.2.1 with
         | some q => if q.isEmpty then [] else '?' :: q
         | none => []) ++
        (match pqf.2.2 with
         | some f => if f.isEmpty then [] else '#' :: f
         | none => [])
      if !netloc.isEmpty then
        bscheme ++ "://".data ++ netloc ++
          (if path.isEmpty then [] else if path.head? == some '/' then path else '/' :: path) ++ tail
      else if path.isEmpty then
        bscheme ++ "://".data ++ bnetloc ++ "/".data ++ tail
      else
        let segments :=
          if path.head? == some '/' then splitSlash path
          else squeezeMiddle ([[], []] ++ splitSlash path)
        let resolved := resolveSegLoop [] segments
        let resolved2 :=
          if segments.getLast? == some ".".data || segments.getLast? == some "..".data then
            resolved ++ [[]]
          else resolved
        let joined := joinSlash resolved2
        let path2 := if joined.isEmpty then "/".data else joined
        bscheme ++ "://".data ++ bnetloc ++
          (if path2.head? == some '/' then path2 else '/' :: path2) ++ tail

/-- `resolve_job_url` (`server.py` lines 28-53): absolute URLs pass through;
root-relative URLs are concatenated onto `scheme://netloc`; everything else
goes through `urljoin(base_url + '/', job_url)`. -/
def resolve_job_url (job_url source_url : Str) : Str :=
  if hasHttpScheme job_url then job_url
  else
    let parsed := urlSchemeNetloc source_url
    let base_url := parsed.1 ++ "://".data ++ parsed.2
    if job_url.head? == some '/' then base_url ++ job_url
    else pyUrljoinRooted parsed.1 parsed.2 job_url


/-! ## Supporting lemmas for URL resolution -/

theorem takeWhile_append_all {p : Char → Bool} {l1 l2 : Str} (h : ∀ c ∈ l1, p c = true) :
    (l1 ++ l2).takeWhile p = l1 ++ l2.takeWhile p := by
  induction l1 with
  | nil => simp
  | cons a as ih =>
    have ha : p a = true := h a (by simp)
    simp [List.takeWhile_cons, ha, ih (fun c hc => h c (by simp [hc]))]

theorem dropWhile_append_all {p : Char → Bool} {l1 l2 : Str} (h : ∀ c ∈ l1, p c = true) :
    (l1 ++ l2).dropWhile p = l2.dropWhile p := by
  induction l1 with
  | nil => simp
  | cons a as ih =>
    have ha : p a = true := h a (by simp)
    simp [List.dropWhile_cons, ha, ih (fun c hc => h c (by simp [hc]))]

theorem isPrefixOf_append (l t : List Char) : l.isPrefixOf (l ++ t) = true := by
  induction l with
  | nil => simp [List.isPrefixOf]
  | cons a as ih => simp [List.isPrefixOf, ih]

theorem takeWhile_all {p : Char → Bool} {l : Str} (h : ∀ c ∈ l, p c = true) :
    l.takeWhile p = l := by
  have h2 := @takeWhile_append_all p l [] h
  simpa using h2

theorem dropWhile_all {p : Char → Bool} {l : Str} (h : ∀ c ∈ l, p c = true) :
    l.dropWhile p = [] := by
  have h2 := @dropWhile_append_all p l [] h
  simpa using h2

/-- The part of a source URL after the netloc is either empty or starts with a
path/query/fragment delimiter. -/
def restOk : Str → Bool
  | [] => true
  | c :: _ => isNetlocEnd c

/-- `urlparse` on a well-formed `scheme://netloc...` source URL extracts
exactly the scheme and the netloc. -/
theorem urlSchemeNetloc_eq (scheme netloc rest : Str)
    (hs : scheme = "http".data ∨ scheme = "https".data)
    (hn : ∀ c ∈ netloc, isNetlocEnd c = false)
    (hr : restOk rest = true) :
    urlSchemeNetloc (scheme ++ "://".data ++ netloc ++ rest) = (scheme, netloc) := by
  have hcolon : ∀ c ∈ scheme, (!(c == ':')) = true := by
    rcases hs with h | h <;> subst h <;> decide
  have hlower : scheme.map Char.toLower = scheme := by
    rcases hs with h | h <;> subst h <;> decide
  have h1 : (scheme ++ "://".data ++ netloc ++ rest).takeWhile (fun c => !(c == ':')) = scheme := by
    rw [List.append_assoc, List.append_assoc, takeWhile_append_all hcolon]
    rw [show "://".data = ':' :: "//".data from rfl]
    simp [List.takeWhile_cons]
  have h2 : (scheme ++ "://".data ++ netloc ++ rest).dropWhile (fun c => !(c == ':'))
      = "://".data ++ (netloc ++ rest) := by
    rw [List.append_assoc, List.append_assoc, dropWhile_append_all hcolon]
    rw [show "://".data = ':' :: "//".data from rfl]
    simp [List.dropWhile_cons]
  have h3 : (netloc ++ rest).takeWhile (fun c => !(isNetlocEnd c)) = netloc := by
    rw [takeWhile_append_all (fun c hc => by simp [hn c hc])]
    cases rest with
    | nil => simp
    | cons c r =>
      have hce : isNetlocEnd c = true := hr
      simp [List.takeWhile_cons, hce]
  unfold urlSchemeNetloc
  simp only [h1, h2, isPrefixOf_append, if_true]
  rw [show (List.drop 3 ([':', '/', '/'] ++ (netloc ++ rest))) = netloc ++ rest from rfl]
  rw [h3, hlower]


theorem splitSlash_ne_nil (u : Str) : splitSlash u ≠ [] := by
  cases u with
  | nil => simp [splitSlash]
  | cons c rest =>
    simp only [splitSlash]
    split
    · simp
    · cases hm : splitSlash rest with
      | nil => simp [consHead]
      | cons a t => simp [consHead]

theorem joinSlash_cons_ne_nil (s : Str) (l : List Str) (h : l ≠ []) :
    joinSlash (s :: l) = s ++ '/' :: joinSlash l := by
  cases l with
  | nil => exact absurd rfl h
  | cons a t => rfl

theorem joinSlash_consHead (c : Char) (l : List Str) (h : l ≠ []) :
    joinSlash (consHead c l) = c :: joinSlash l := by
  cases l with
  | nil => exact absurd rfl h
  | cons a t =>
    cases t with
    | nil => rfl
    | cons b ts => rfl

theorem joinSlash_splitSlash (u : Str) : joinSlash (splitSlash u) = u := by
  induction u with
  | nil => rfl
  | cons c rest ih =>
    simp only [splitSlash]
    split
    · rename_i h
      rw [joinSlash_cons_ne_nil _ _ (splitSlash_ne_nil rest), ih]
      simp only [beq_iff_eq] at h
      simp [h]
    · rw [joinSlash_consHead _ _ (splitSlash_ne_nil rest), ih]

theorem squeezeAux_cons_nil (l : List Str) (h : l ≠ []) :
    squeezeMiddle.squeezeAux ([] :: l) = squeezeMiddle.squeezeAux l := by
  cases l with
  | nil => exact absurd rfl h
  | cons a t => rfl

theorem squeezeAux_all_nonempty (l : List Str) (h : ∀ s ∈ l, s ≠ []) :
    squeezeMiddle.squeezeAux l = l := by
  induction l with
  | nil => rfl
  | cons a t ih =>
    cases t with
    | nil => rfl
    | cons b ts =>
      have ha : a ≠ [] := h a (by simp)
      have ht : squeezeMiddle.squeezeAux (b :: ts) = b :: ts :=
        ih (fun s hs => h s (by simp [hs]))
      simp only [squeezeMiddle.squeezeAux]
      rw [if_neg (by simpa using ha), ht]

theorem resolveSegLoop_no_dots (acc : List Str) (l : List Str)
    (h : ∀ s ∈ l, s ≠ ".".data ∧ s ≠ "..".data) :
    resolveSegLoop acc l = acc ++ l := by
  induction l generalizing acc with
  | nil => simp [resolveSegLoop]
  | cons a t ih =>
    have ha := h a (by simp)
    simp only [resolveSegLoop]
    rw [if_neg (by simp [ha.2]), if_neg (by simp [ha.1])]
    rw [ih _ (fun s hs => h s (by simp [hs]))]
    simp

theorem refSplitScheme_none {u : Str} (h : ∀ c ∈ u, (c == ':') = false) :
    refSplitScheme u = none := by
  have hd : u.dropWhile (fun c => !(c == ':')) = [] :=
    dropWhile_all (fun c hc => by simp [h c hc])
  simp [refSplitScheme, hd]

theorem isPrefixOf_cons_cons (a b : Char) (as bs : Str) :
    (a :: as).isPrefixOf (b :: bs) = (a == b && as.isPrefixOf bs) := rfl

theorem hasHttpScheme_of_slash {u : Str} (h : u.head? = some '/') :
    hasHttpScheme u = false := by
  cases u with
  | nil => simp at h
  | cons c rest =>
    simp only [List.head?_cons, Option.some_inj] at h
    subst h
    rw [hasHttpScheme,
      show "http://".data = 'h' :: "ttp://".data from rfl,
      show "https://".data = 'h' :: "ttps://".data from rfl,
      isPrefixOf_cons_cons, isPrefixOf_cons_cons]
    simp

theorem hasHttpScheme_of_no_colon {u : Str} (h : ∀ c ∈ u, (c == ':') = false) :
    hasHttpScheme u = false := by
  have key : ∀ p : Str, ':' ∈ p → p.isPrefixOf u = false := by
    intro p hp
    cases hb : p.isPrefixOf u
    · rfl
    · exfalso
      have hmem : ':' ∈ u := (List.isPrefixOf_iff_prefix.mp hb).subset hp
      simpa using h ':' hmem
  rw [hasHttpScheme, key _ (by decide), key _ (by decide)]
  rfl

theorem splitFirst_none {c : Char} {u : Str} (h : ∀ x ∈ u, (x == c) = false) :
    splitFirst c u = (u, none) := by
  have hd : u.dropWhile (fun x => !(x == c)) = [] :=
    dropWhile_all (fun x hx => by simp [h x hx])
  simp [splitFirst, hd]

theorem splitRefBody_plain {u : Str} (hq : ∀ x ∈ u, (x == '?') = false)
    (hf : ∀ x ∈ u, (x == '#') = false) :
    splitRefBody u = (u, none, none) := by
  simp [splitRefBody, splitFirst_none hf, splitFirst_none hq]

theorem isPrefixOf_slashslash_false {u : Str} (h : u.head? ≠ some '/') :
    List.isPrefixOf "//".data u = false := by
  cases u with
  | nil => rfl
  | cons c rest =>
    have hc : ¬('/' : Char) = c := fun hh => h (by simp [hh.symm])
    rw [show "//".data = '/' :: '/' :: ([] : Str) from rfl, isPrefixOf_cons_cons]
    simp [hc]

theorem getLast?_cons_of_ne_nil (a : Str) (l : List Str) (h : l ≠ []) :
    (a :: l).getLast? = l.getLast? := by
  cases l with
  | nil => exact absurd rfl h
  | cons b t => simp [List.getLast?_cons_cons]

/-- Well-formedness of a source URL split as `scheme ++ "://" ++ netloc ++ rest`. -/
abbrev SourceWf (scheme netloc rest : Str) : Prop :=
  (scheme = "http".data ∨ scheme = "https".data) ∧
  (∀ c ∈ netloc, isNetlocEnd c = false) ∧
  restOk rest = true

/-- A plain relative reference: non-empty, not root-relative, free of
scheme/query/fragment delimiters, with no empty and no dot segments. -/
abbrev PlainRef (u : Str) : Prop :=
  u ≠ [] ∧ u.head? ≠ some '/' ∧
  (∀ c ∈ u, (c == ':') = false ∧ (c == '?') = false ∧ (c == '#') = false) ∧
  (∀ s ∈ splitSlash u, s ≠ [] ∧ s ≠ ".".data ∧ s ≠ "..".data)

theorem pyUrljoinRooted_plain (bscheme bnetloc u : Str)
    (_hb : bscheme = "http".data ∨ bscheme = "https".data) (h : PlainRef u) :
    pyUrljoinRooted bscheme bnetloc u = bscheme ++ "://".data ++ bnetloc ++ '/' :: u := by
  obtain ⟨hne, hhead, hchars, hsegs⟩ := h
  have hE : u.isEmpty = false := by simpa using hne
  have hscheme : refSplitScheme u = none :=
    refSplitScheme_none (fun c hc => (hchars c hc).1)
  have hpp : List.isPrefixOf "//".data u = false := isPrefixOf_slashslash_false hhead
  have hsrb : splitRefBody u = (u, none, none) :=
    splitRefBody_plain (fun c hc => (hchars c hc).2.1) (fun c hc => (hchars c hc).2.2)
  have hheadb : (u.head? == some '/') = false := beq_eq_false_iff_ne.mpr hhead
  have hsegsN : ∀ s ∈ splitSlash u, s ≠ [] := fun s hs => (hsegs s hs).1
  have hsplitne := splitSlash_ne_nil u
  have hsq : squeezeMiddle ([] :: [] :: splitSlash u) = [] :: splitSlash u := by
    rw [squeezeMiddle, squeezeAux_cons_nil _ hsplitne, squeezeAux_all_nonempty _ hsegsN]
  have hloop : resolveSegLoop [] ([] :: splitSlash u) = [] :: splitSlash u := by
    rw [resolveSegLoop_no_dots]
    · rfl
    · intro s hs
      rcases List.mem_cons.mp hs with hs | hs
      · subst hs
        constructor <;> simp
      · exact ⟨(hsegs s hs).2.1, (hsegs s hs).2.2⟩
  have hlast1 : ¬(([] :: splitSlash u).getLast? = some ".".data) := by
    rw [getLast?_cons_of_ne_nil _ _ hsplitne, List.getLast?_eq_getLast_of_ne_nil hsplitne]
    simpa using (hsegs _ (List.getLast_mem hsplitne)).2.1
  have hlast2 : ¬(([] :: splitSlash u).getLast? = some "..".data) := by
    rw [getLast?_cons_of_ne_nil _ _ hsplitne, List.getLast?_eq_getLast_of_ne_nil hsplitne]
    simpa using (hsegs _ (List.getLast_mem hsplitne)).2.2
  have hjoin : joinSlash ([] :: splitSlash u) = '/' :: u := by
    rw [joinSlash_cons_ne_nil _ _ hsplitne, joinSlash_splitSlash]
    rfl
  simp [pyUrljoinRooted, hE, hscheme, hpp, hsrb, hheadb, hsq, hloop, hlast1, hlast2, hjoin, hne]

theorem resolve_http {u : Str} (s : Str) (h : hasHttpScheme u = true) :
    resolve_job_url u s = u := by
  simp [resolve_job_url, h]

theorem resolve_root_relative (scheme netloc rest u : Str) (hw : SourceWf scheme netloc rest)
    (h : u.head? = some '/') :
    resolve_job_url u (scheme ++ "://".data ++ netloc ++ rest)
      = scheme ++ "://".data ++ netloc ++ u := by
  obtain ⟨hs, hn, hr⟩ := hw
  have hsn := urlSchemeNetloc_eq scheme netloc rest hs hn hr
  simp at hsn
  simp [resolve_job_url, hasHttpScheme_of_slash h, hsn, h]

theorem resolve_plain (scheme netloc rest u : Str) (hw : SourceWf scheme netloc rest)
    (hp : PlainRef u) :
    resolve_job_url u (scheme ++ "://".data ++ netloc ++ rest)
      = scheme ++ "://".data ++ netloc ++ '/' :: u := by
  obtain ⟨hs, hn, hr⟩ := hw
  obtain ⟨hne, hhead, hchars, hsegs⟩ := hp
  have hsn := urlSchemeNetloc_eq scheme netloc rest hs hn hr
  simp at hsn
  simp [resolve_job_url, hasHttpScheme_of_no_colon (fun c hc => (hchars c hc).1),
    hsn, hhead, pyUrljoinRooted_plain scheme netloc u hs ⟨hne, hhead, hchars, hsegs⟩]

/-- **C6.** `resolve_job_url` is a pure function satisfying: (a) a URL that
already carries an `http://`/`https://` scheme is returned unchanged; (b) a
URL starting with `/` is rooted at the source URL's scheme+host, whatever the
source page's own path, query or fragment (`rest`) is; (c) any other plain
relative URL is joined against `scheme://host/`, never inheriting the source
page's own path; together with the three concrete examples of the
specification. -/
theorem C6_resolve_job_url_spec :
    (∀ (u s : Str), hasHttpScheme u = true → resolve_job_url u s = u) ∧
    (∀ scheme netloc rest u, SourceWf scheme netloc rest → u.head? = some '/' →
      resolve_job_url u (scheme ++ "://".data ++ netloc ++ rest)
        = scheme ++ "://".data ++ netloc ++ u) ∧
    (∀ scheme netloc rest u, SourceWf scheme netloc rest → PlainRef u →
      resolve_job_url u (scheme ++ "://".data ++ netloc ++ rest)
        = scheme ++ "://".data ++ netloc ++ '/' :: u) ∧
    resolve_job_url "/jobs/42".data "https://b.com/search?x=1".data
      = "https://b.com/jobs/42".data ∧
    resolve_job_url "jobs/42".data "https://b.com/search/page".data
      = "https://b.com/jobs/42".data ∧
    resolve_job_url "https://x.com/j".data "https://b.com/search".data
      = "https://x.com/j".data :=
  ⟨fun u s h => resolve_http s h,
   fun scheme netloc rest u hw h => resolve_root_relative scheme netloc rest u hw h,
   fun scheme netloc rest u hw hp => resolve_plain scheme netloc rest u hw hp,
   by decide, by decide, by decide⟩

/-- Witness for C6 at a concrete input. -/
theorem C6_resolve_job_url_spec_witness :
    SourceWf "https".data "b.com".data "/search".data ∧ PlainRef "jobs/42".data ∧
    resolve_job_url "jobs/42".data
        ("https".data ++ "://".data ++ "b.com".data ++ "/search".data)
      = "https".data ++ "://".data ++ "b.com".data ++ '/' :: "jobs/42".data :=
  ⟨by decide, by decide,
   C6_resolve_job_url_spec.2.2.1 "https".data "b.com".data "/search".data "jobs/42".data
     (by decide) (by decide)⟩



/-! ## Data model (`database.py`) -/

/-- `Job` (`database.py` lines 24-36); `requirements`, `pdf_path`,
`error_message` and `created_at` play no part in the scan path and are
omitted. No uniqueness constraint is declared on `url` in the schema. -/
structure JobRec where
  id : Nat
  url : Str
  company : Str
  title : Str
  status : Str
  score : Option Int
  source_id : Option Nat
deriving DecidableEq

/-- `JobSource` (`database.py` lines 14-21). -/
structure SourceRec where
  id : Nat
  url : Str
  name : Str
  filter_prompt : Option Str
  last_scraped_at : Option Nat
  created_at : Nat
deriving DecidableEq

/-- The relational store: the `job`, `jobsource` and `settings` tables, plus
the next primary key the database would assign to an inserted job. -/
structure Store where
  jobs : List JobRec
  sources : List SourceRec
  settings : List (Str × Str)
  nextJobId : Nat
deriving DecidableEq

/-- `session.get(Settings, key)` (keys are primary keys). -/
def settingsGet (st : Store) (k : Str) : Option Str :=
  (st.settings.find? (fun kv => kv.1 == k)).map (fun kv => kv.2)

/-- `GLOBAL_FILTER_KEY` (`server.py` line 188). -/
def GLOBAL_FILTER_KEY : Str := "global_filter_prompt".data

/-- `set_global_filter` (`server.py` lines 198-208): update the value of the
existing `Settings` row under `GLOBAL_FILTER_KEY`, or create it. -/
def set_global_filter (st : Store) (v : Str) : Store :=
  { st with settings :=
      if (st.settings.find? (fun kv => kv.1 == GLOBAL_FILTER_KEY)).isSome then
        st.settings.map (fun kv => if kv.1 == GLOBAL_FILTER_KEY then (kv.1, v) else kv)
      else st.settings ++ [(GLOBAL_FILTER_KEY, v)] }

/-- `session.exec(select(Job).where(Job.url == u)).first()`. -/
def findJobByUrl (st : Store) (u : Str) : Option JobRec :=
  st.jobs.find? (fun j => j.url == u)

/-- The batch lookup (`server.py` lines 393-399): `existing_jobs` is every
row whose url is among the discovered urls, and the dict comprehension keyed
by url keeps the last row for each url. -/
def batchExisting (st : Store) (u : Str) : Option JobRec :=
  (st.jobs.filter (fun j => j.url == u)).getLast?

/-- `session.add(Job(...)); session.commit(); session.refresh(...)`: the
table appends the record under the next primary key. -/
def insertJob (st : Store) (url company title status : Str) (score : Option Int)
    (source_id : Option Nat) : JobRec × Store :=
  let j : JobRec := ⟨st.nextJobId, url, company, title, status, score, source_id⟩
  (j, { st with jobs := st.jobs ++ [j], nextJobId := st.nextJobId + 1 })

/-- Stamp `last_scraped_at` on the first source with the given id
(`server.py` lines 522-528: `.first()`, then mutate only that field). -/
def updateFirstSource (now : Nat) (sid : Nat) : List SourceRec → List SourceRec
  | [] => []
  | s :: rest =>
    if s.id == sid then { s with last_scraped_at := some now } :: rest
    else s :: updateFirstSource now sid rest

def updateSourceScanned (st : Store) (sid : Nat) (now : Nat) : Store :=
  { st with sources := updateFirstSource now sid st.sources }

/-! ## Transient and report types (`server.py`) -/

/-- `DiscoveredJob` as the scan uses it. -/
structure Posting where
  title : Str
  company : Str
  url : Str
deriving DecidableEq

/-- `JobInfo` (`server.py` lines 143-149). -/
structure JobInfo where
  id : Option Nat
  title : Str
  company : Str
  url : Str
  score : Option Int
  skip_reason : Option Str
deriving DecidableEq

/-- `SourceScanResult` (`server.py` lines 152-161). -/
structure SourceResult where
  source_id : Nat
  source_name : Str
  source_url : Str
  jobs_found : Nat
  jobs_added : Nat
  jobs_skipped : Nat
  added_jobs : List JobInfo
  skipped_jobs : List JobInfo
  error : Option Str
deriving DecidableEq

/-- The `scan_status` dict (`server.py` lines 80-92). -/
structure ScanState where
  is_scanning : Bool
  current_source : Option Str
  current_source_id : Option Nat
  sources_total : Nat
  sources_completed : Nat
  jobs_found : Nat
  jobs_scored : Nat
  current_step : Option Str
  error : Option Str
  source_results : List SourceResult
  active_sources : List Str
deriving DecidableEq

/-- The per-source data extracted before the orchestrator's session closes
(`server.py` lines 587-595). -/
structure SourceData where
  id : Nat
  name : Str
  url : Str
  filter_prompt : Option Str
deriving DecidableEq

def toSourceData (s : SourceRec) : SourceData := ⟨s.id, s.name, s.url, s.filter_prompt⟩

/-- How `load_master_resume` can end at the top of the orchestrator
(`server.py` lines 600-605): content, a caught `FileNotFoundError`
(scoring is skipped), or any other exception (not caught there). -/
inductive ResumeLoad where
  | ok (content : Str)
  | notFound
  | err (msg : Str)
deriving DecidableEq

/-- The external collaborators as an environment of pure functions: the
content fetcher per URL, the extraction agent (`JobDiscoveryAgent.discover`
catches its own exceptions and returns a list), the per-job scrape+score
pipeline outcome per job URL (`none` when either step failed — the code
swallows the exception and leaves the score null, `server.py` lines
430-448), the clock, and the two fallible top-level steps of the
orchestrator (resume loading, and Gemini-client construction inside
`JobDiscoveryAgent()` / `JobScoringAgent()`, which raises `ValueError`
without an API key). -/
structure ScanEnv where
  fetchHtml : Str → Except Str Str
  discover : Str → Str → List Posting
  jobScore : Str → Option Int
  now : Nat
  loadMasterResume : ResumeLoad
  agentInit : Except Str Unit

/-! ## Single-source scan (`process_single_source`, lines 320-543) -/

/-- `is_low_score = score is not None and score < 50` (`server.py` line 470). -/
def is_low_score (score : Option Int) : Bool :=
  match score with
  | some s => decide (s < 50)
  | none => false

/-- The combined filter for one source (`server.py` lines 369-380).  Note
that this in-line construction reads the settings key `"global_filter"`. -/
def scanCombinedFilter (st : Store) (source_filter_prompt : Option Str) : Str :=
  let global_filter := (settingsGet st "global_filter".data).getD []
  let sf := source_filter_prompt.getD []
  if !sf.isEmpty && !global_filter.isEmpty then
    global_filter ++ "\n\nAdditional filter for this source:\n".data ++ sf
  else if !sf.isEmpty then sf
  else if !global_filter.isEmpty then global_filter
  else "Find all software engineering and technical jobs".data

/-- The baseline result dict for a source (`server.py` lines 336-346). -/
def emptyResult (src : SourceData) : SourceResult :=
  ⟨src.id, src.name, src.url, 0, 0, 0, [], [], none⟩

/-- Discovery for one source: the extraction agent on the fetched page with
the combined filter, then URL normalisation (`server.py` lines 367-388). -/
def discoverPhase (env : ScanEnv) (st : Store) (src : SourceData) (html : Str) :
    List Posting :=
  (env.discover html (scanCombinedFilter st src.filter_prompt)).map
    (fun p => ⟨p.title, p.company, resolve_job_url p.url src.url⟩)

/-- One step of the partition of discovered candidates into already-known and
new (`server.py` lines 402-417); the batch dict was computed against the
store as it was before the loop. -/
def partStep (st : Store) (acc : List Posting × SourceResult) (dj : Posting) :
    List Posting × SourceResult :=
  match batchExisting st dj.url with
  | some existing =>
    (acc.1,
     { acc.2 with
        jobs_skipped := acc.2.jobs_skipped + 1,
        skipped_jobs := acc.2.skipped_jobs ++
          [⟨some existing.id, existing.title, existing.company, existing.url,
            existing.score, some "already_exists".data⟩] })
  | none => (acc.1 ++ [dj], acc.2)

def partitionPhase (st : Store) (res : SourceResult) (discovered : List Posting) :
    List Posting × SourceResult :=
  discovered.foldl (partStep st) ([], res)

/-- The per-job tasks (`process_single_job`, `server.py` lines 424-453):
each new candidate is paired with its scrape+score outcome; with no scoring
agent or no master resume the score stays `none`. -/
def scoreJobs (env : ScanEnv) (scoringEnabled : Bool) (newJobs : List Posting) :
    List (Posting × Option Int) :=
  newJobs.map (fun dj => (dj, if scoringEnabled then env.jobScore dj.url else none))

/-- How many jobs were successfully scored, i.e. how many times the code
increments `scan_status["jobs_scored"]` (`server.py` line 445). -/
def numScored (env : ScanEnv) (scoringEnabled : Bool) (newJobs : List Posting) : Nat :=
  ((scoreJobs env scoringEnabled newJobs).filter (fun x => x.2.isSome)).length

/-- One iteration of the save loop (`server.py` lines 463-520): re-query by
URL immediately before insert; an existing record is reported as skipped
`already_exists` carrying that record's score; otherwise the job is
persisted (status `suggested`) and classified by its score. -/
def persistStep (sid : Nat) (acc : SourceResult × Store) (x : Posting × Option Int) :
    SourceResult × Store :=
  let res := acc.1
  let st := acc.2
  let dj := x.1
  let score := x.2
  match findJobByUrl st dj.url with
  | some existing =>
    ({ res with
        jobs_skipped := res.jobs_skipped + 1,
        skipped_jobs := res.skipped_jobs ++
          [⟨some existing.id, existing.title, existing.company, existing.url,
            existing.score, some "already_exists".data⟩] }, st)
  | none =>
    let ins := insertJob st dj.url dj.company dj.title "suggested".data score (some sid)
    if is_low_score score then
      ({ res with
          jobs_skipped := res.jobs_skipped + 1,
          skipped_jobs := res.skipped_jobs ++
            [⟨some ins.1.id, ins.1.title, ins.1.company, ins.1.url,
              score, some "low_score".data⟩] }, ins.2)
    else
      ({ res with
          jobs_added := res.jobs_added + 1,
          added_jobs := res.added_jobs ++
            [⟨some ins.1.id, ins.1.title, ins.1.company, ins.1.url,
              score, none⟩] }, ins.2)

/-- The sequential save loop over the per-job outcomes (`server.py` lines
462-520; the `isinstance(result, Exception)` arm is unreachable because each
job task catches its own exceptions). -/
def persistPhase (sid : Nat) (res : SourceResult) (st : Store)
    (xs : List (Posting × Option Int)) : SourceResult × Store :=
  xs.foldl (persistStep sid) (res, st)

/-- The body of `process_single_source` (`server.py` lines 355-534): fetch,
discover, partition, score, persist, stamp `last_scraped_at`; an exception
in the body is caught and recorded as `source_result["error"]` (lines
532-534).  The fetch is the fallible step of this embedding; extraction
swallows its own errors and the store is not fallible. -/
def scanSourceCore (env : ScanEnv) (scoringEnabled : Bool) (src : SourceData)
    (st : Store) : SourceResult × Store :=
  match env.fetchHtml src.url with
  | Except.error e => ({ emptyResult src with error := some e }, st)
  | Except.ok html =>
    let discovered := discoverPhase env st src html
    let part := partitionPhase st { emptyResult src with jobs_found := discovered.length }
      discovered
    let pers := persistPhase src.id part.2 st (scoreJobs env scoringEnabled part.1)
    (pers.1, updateSourceScanned pers.2 src.id env.now)

/-- `", ".join(active_sources)`. -/
def joinComma (l : List Str) : Str := List.intercalate ", ".data l

/-- The status updates on entry of a source task (`server.py` lines
351-353). -/
def enterActive (st : ScanState) (name : Str) : ScanState :=
  let act := st.active_sources ++ [name]
  { st with active_sources := act, current_source := some (joinComma act) }

/-- The `finally` block of the source task (`server.py` lines 536-541):
remove the first occurrence of the name if present, recompute
`current_source`, and always bump `sources_completed`. -/
def exitActive (st : ScanState) (name : Str) : ScanState :=
  let act := st.active_sources.erase name
  { st with
      active_sources := act,
      current_source := if act.isEmpty then none else some (joinComma act),
      sources_completed := st.sources_completed + 1 }

/-- `process_single_source` (`server.py` lines 320-543): the core scan plus
the `scan_status` bookkeeping — `jobs_found`/`jobs_scored` are incremented
only when fetch and discovery succeeded, and the `finally` block always
runs; the function itself never raises. -/
def process_single_source (env : ScanEnv) (scoringEnabled : Bool) (src : SourceData)
    (store : Store) (st : ScanState) : SourceResult × Store × ScanState :=
  let stA := enterActive st src.name
  let core := scanSourceCore env scoringEnabled src store
  let stB :=
    match env.fetchHtml src.url with
    | Except.error _ => stA
    | Except.ok html =>
      let discovered := discoverPhase env store src html
      let newJobs :=
        (partitionPhase store { emptyResult src with jobs_found := discovered.length }
          discovered).1
      { stA with
          jobs_found := stA.jobs_found + discovered.length,
          jobs_scored := stA.jobs_scored + numScored env scoringEnabled newJobs }
  (core.1, core.2, exitActive stB src.name)

/-! ## Orchestrator (`process_job_discovery`, lines 546-659) -/

/-- The reset of `scan_status` at scan start (`server.py` lines 556-568). -/
def resetState : ScanState :=
  ⟨true, none, none, 0, 0, 0, 0, some "initializing".data, none, [], []⟩

/-- The `finally` block of `process_job_discovery` (lines 655-659). -/
def finalize (st : ScanState) : ScanState :=
  { st with is_scanning := false, current_step := some "completed".data,
            current_source := none, active_sources := [] }

/-- Source resolution (lines 572-578): Python `if source_ids:` is falsy for
both `None` and `[]`, in which case all sources are scanned. -/
def resolveSources (store : Store) (source_ids : Option (List Nat)) : List SourceRec :=
  match source_ids with
  | some ids =>
    if ids.isEmpty then store.sources
    else store.sources.filter (fun s => ids.contains s.id)
  | none => store.sources

/-- One source task followed by its result collection: `asyncio.gather`
returns results in argument order and the collection loop (lines 631-647)
appends them in that order; the tasks are exception-free, so the
`isinstance(result, Exception)` arm is unreachable. -/
def discoveryStep (env : ScanEnv) (scoringEnabled : Bool)
    (acc : List SourceResult × Store × ScanState) (src : SourceData) :
    List SourceResult × Store × ScanState :=
  let r := process_single_source env scoringEnabled src acc.2.1 acc.2.2
  (acc.1 ++ [r.1], r.2.1, r.2.2)

/-- `process_job_discovery` (`server.py` lines 546-659). Scoring runs only
when the master resume loaded and is non-empty (`scoring_agent and
master_resume`); a non-`FileNotFoundError` failure of the resume load or a
failure of agent construction is caught by the top-level handler (lines
651-653), which sets the scan-level `error`; the `finally` block always
runs. -/
def process_job_discovery (env : ScanEnv) (source_ids : Option (List Nat))
    (store : Store) : Store × ScanState :=
  let st0 := resetState
  let sources := resolveSources store source_ids
  if sources.isEmpty then
    (store, finalize { st0 with is_scanning := false,
                                current_step := some "completed".data })
  else
    let data := sources.map toSourceData
    let st1 := { st0 with sources_total := data.length,
                          current_step := some "scanning sources in parallel".data }
    match env.loadMasterResume with
    | ResumeLoad.err e => (store, finalize { st1 with error := some e })
    | mr =>
      match env.agentInit with
      | Except.error e => (store, finalize { st1 with error := some e })
      | Except.ok _ =>
        let scoringEnabled := match mr with
          | ResumeLoad.ok c => !c.isEmpty
          | _ => false
        let run := data.foldl (discoveryStep env scoringEnabled) ([], store, st1)
        (run.2.1,
         finalize { run.2.2 with
                      source_results := run.2.2.source_results ++ run.1 })

/-- `refresh_suggestions` (`server.py` lines 811-843): HTTP 400 when the
resolved source set is empty, otherwise the accepted response
`(sources_count, source_ids handed to the background task)`.  The handler
consults only the `jobsource` table; the `scan_status["is_scanning"]` flag
at the moment the request arrives (the second parameter) is not read by the
handler at all. -/
def refresh_suggestions (store : Store) (_is_scanning : Bool)
    (request_ids : Option (List Nat)) : Except Nat (Nat × Option (List Nat)) :=
  match request_ids with
  | some ids =>
    if !ids.isEmpty then
      let sources := store.sources.filter (fun s => ids.contains s.id)
      if sources.length == 0 then Except.error 400
      else Except.ok (sources.length, some ids)
    else
      if store.sources.length == 0 then Except.error 400
      else Except.ok (store.sources.length, none)
  | none =>
    if store.sources.length == 0 then Except.error 400
    else Except.ok (store.sources.length, none)

/-- Stable insertion of task index `i` into a list of indices ordered by
completion time. -/
def insertByTime (times : List Nat) (i : Nat) : List Nat → List Nat
  | [] => [i]
  | j :: rest =>
    if times.getD j 0 ≤ times.getD i 0 then j :: insertByTime times i rest
    else i :: j :: rest

/-- Completion order of concurrently launched tasks with the given
completion times: task indices sorted stably by time (with no more tasks
than `MAX_CONCURRENT_SOURCES` they all start together, so a task's
completion time is its duration). -/
def completionOrder (times : List Nat) : List Nat :=
  (List.range times.length).foldl (fun acc i => insertByTime times i acc) []


/-! ## Supporting definitions and lemmas for the scan theorems -/

/-- The urls of the persisted jobs. -/
def urlsOf (st : Store) : List Str := st.jobs.map (fun j => j.url)

/-- The outcome of the fetch for a source, as an optional error message. -/
def fetchErrOf (env : ScanEnv) (src : SourceData) : Option Str :=
  match env.fetchHtml src.url with
  | Except.error e => some e
  | Except.ok _ => none

/-- The discovery outcome of one source against a store (empty when the fetch
fails, since the body never reaches the extraction call). -/
def sourceDiscovery (env : ScanEnv) (st : Store) (src : SourceData) : List Posting :=
  match env.fetchHtml src.url with
  | Except.error _ => []
  | Except.ok html => discoverPhase env st src html

theorem findJobByUrl_none_iff (st : Store) (u : Str) :
    findJobByUrl st u = none ↔ u ∉ urlsOf st := by
  simp [findJobByUrl, urlsOf, List.find?_eq_none]

theorem findJobByUrl_some_url {st : Store} {u : Str} {j : JobRec}
    (h : findJobByUrl st u = some j) : j.url = u := by
  have := List.find?_some h
  simpa using this

theorem findJobByUrl_some_mem {st : Store} {u : Str} {j : JobRec}
    (h : findJobByUrl st u = some j) : j ∈ st.jobs :=
  List.mem_of_find?_eq_some h

theorem batchExisting_some_url {st : Store} {u : Str} {j : JobRec}
    (h : batchExisting st u = some j) : j.url = u := by
  unfold batchExisting at h
  have hmem : j ∈ st.jobs.filter (fun j => j.url == u) := by
    rcases List.mem_getLast?_eq_getLast (Option.mem_def.mpr h) with ⟨hne, hj⟩
    rw [hj]
    exact List.getLast_mem hne
  simpa using (List.mem_filter.mp hmem).2

theorem batchExisting_isSome_iff (st : Store) (u : Str) :
    (batchExisting st u).isSome = true ↔ u ∈ urlsOf st := by
  unfold batchExisting
  rw [List.getLast?_isSome]
  simp only [urlsOf, List.mem_map]
  constructor
  · intro h
    rcases List.exists_mem_of_ne_nil _ h with ⟨j, hj⟩
    have := List.mem_filter.mp hj
    exact ⟨j, this.1, by simpa using this.2⟩
  · rintro ⟨j, hj, hju⟩
    intro hnil
    have : j ∈ st.jobs.filter (fun j => j.url == u) :=
      List.mem_filter.mpr ⟨hj, by simpa using hju⟩
    rw [hnil] at this
    simp at this

theorem batchExisting_none_iff (st : Store) (u : Str) :
    batchExisting st u = none ↔ u ∉ urlsOf st := by
  rw [← batchExisting_isSome_iff]
  cases batchExisting st u <;> simp



theorem persistStep_frame (sid : Nat) (acc : SourceResult × Store) (x : Posting × Option Int) :
    (persistStep sid acc x).1.source_id = acc.1.source_id ∧
    (persistStep sid acc x).1.source_name = acc.1.source_name ∧
    (persistStep sid acc x).1.source_url = acc.1.source_url ∧
    (persistStep sid acc x).1.jobs_found = acc.1.jobs_found ∧
    (persistStep sid acc x).1.error = acc.1.error := by
  rcases hf : findJobByUrl acc.2 x.1.url with _ | j <;>
    cases hl : is_low_score x.2 <;>
      simp [persistStep, hf, hl]

theorem persistStep_store_frame (sid : Nat) (acc : SourceResult × Store) (x : Posting × Option Int) :
    (persistStep sid acc x).2.sources = acc.2.sources ∧
    (persistStep sid acc x).2.settings = acc.2.settings := by
  rcases hf : findJobByUrl acc.2 x.1.url with _ | j <;>
    cases hl : is_low_score x.2 <;>
      simp [persistStep, hf, hl, insertJob]

theorem persistStep_jobs_mono (sid : Nat) (acc : SourceResult × Store) (x : Posting × Option Int)
    {j : JobRec} (h : j ∈ acc.2.jobs) : j ∈ (persistStep sid acc x).2.jobs := by
  rcases hf : findJobByUrl acc.2 x.1.url with _ | j' <;>
    cases hl : is_low_score x.2 <;>
      simp [persistStep, hf, hl, insertJob, h]

theorem persistStep_urls_mono (sid : Nat) (acc : SourceResult × Store) (x : Posting × Option Int)
    {u : Str} (h : u ∈ urlsOf acc.2) : u ∈ urlsOf (persistStep sid acc x).2 := by
  simp only [urlsOf, List.mem_map] at h ⊢
  rcases h with ⟨j, hj, hju⟩
  exact ⟨j, persistStep_jobs_mono sid acc x hj, hju⟩

theorem persistStep_skipped_mono (sid : Nat) (acc : SourceResult × Store) (x : Posting × Option Int)
    {info : JobInfo} (h : info ∈ acc.1.skipped_jobs) :
    info ∈ (persistStep sid acc x).1.skipped_jobs := by
  rcases hf : findJobByUrl acc.2 x.1.url with _ | j' <;>
    cases hl : is_low_score x.2 <;>
      simp [persistStep, hf, hl, h]

theorem persistStep_added (sid : Nat) (acc : SourceResult × Store) (x : Posting × Option Int) :
    (persistStep sid acc x).1.added_jobs = acc.1.added_jobs ∨
    ∃ e : JobInfo, (persistStep sid acc x).1.added_jobs = acc.1.added_jobs ++ [e] ∧
      e.url = x.1.url := by
  rcases hf : findJobByUrl acc.2 x.1.url with _ | j
  · cases hl : is_low_score x.2
    · exact Or.inr ⟨⟨some acc.2.nextJobId, x.1.title, x.1.company, x.1.url, x.2, none⟩,
        by simp [persistStep, hf, hl, insertJob], rfl⟩
    · exact Or.inl (by simp [persistStep, hf, hl])
  · exact Or.inl (by simp [persistStep, hf])

theorem persistStep_url_mem (sid : Nat) (acc : SourceResult × Store) (x : Posting × Option Int) :
    x.1.url ∈ urlsOf (persistStep sid acc x).2 := by
  rcases hf : findJobByUrl acc.2 x.1.url with _ | j
  · cases hl : is_low_score x.2 <;>
      simp [persistStep, hf, hl, insertJob, urlsOf]
  · have hj := findJobByUrl_some_mem hf
    have hju := findJobByUrl_some_url hf
    simp only [persistStep, hf, urlsOf, List.mem_map]
    exact ⟨j, hj, hju⟩

theorem persistStep_nodup (sid : Nat) (acc : SourceResult × Store) (x : Posting × Option Int)
    (h : (urlsOf acc.2).Nodup) : (urlsOf (persistStep sid acc x).2).Nodup := by
  rcases hf : findJobByUrl acc.2 x.1.url with _ | j
  · have hnm : x.1.url ∉ urlsOf acc.2 := (findJobByUrl_none_iff _ _).mp hf
    have hnd : (urlsOf acc.2 ++ [x.1.url]).Nodup := by
      rw [List.nodup_append]
      refine ⟨h, by simp, ?_⟩
      intro a ha hb
      simp at hb
      subst hb
      exact hnm ha
    cases hl : is_low_score x.2 <;>
      · simp only [persistStep, hf, hl, insertJob, urlsOf] at *
        simpa using hnd
  · simpa [persistStep, hf] using h



theorem persistPhase_nil (sid : Nat) (res : SourceResult) (st : Store) :
    persistPhase sid res st [] = (res, st) := rfl

theorem persistPhase_cons (sid : Nat) (res : SourceResult) (st : Store)
    (x : Posting × Option Int) (xs : List (Posting × Option Int)) :
    persistPhase sid res st (x :: xs)
      = persistPhase sid (persistStep sid (res, st) x).1 (persistStep sid (res, st) x).2 xs := by
  simp [persistPhase]

theorem persistPhase_frame (sid : Nat) (xs : List (Posting × Option Int))
    (res : SourceResult) (st : Store) :
    (persistPhase sid res st xs).1.source_id = res.source_id ∧
    (persistPhase sid res st xs).1.source_name = res.source_name ∧
    (persistPhase sid res st xs).1.source_url = res.source_url ∧
    (persistPhase sid res st xs).1.jobs_found = res.jobs_found ∧
    (persistPhase sid res st xs).1.error = res.error := by
  induction xs generalizing res st with
  | nil => simp [persistPhase_nil]
  | cons x xs ih =>
    rw [persistPhase_cons]
    have hs := persistStep_frame sid (res, st) x
    have ht := ih (persistStep sid (res, st) x).1 (persistStep sid (res, st) x).2
    exact ⟨ht.1.trans hs.1, ht.2.1.trans hs.2.1, ht.2.2.1.trans hs.2.2.1,
           ht.2.2.2.1.trans hs.2.2.2.1, ht.2.2.2.2.trans hs.2.2.2.2⟩

theorem persistPhase_store_frame (sid : Nat) (xs : List (Posting × Option Int))
    (res : SourceResult) (st : Store) :
    (persistPhase sid res st xs).2.sources = st.sources ∧
    (persistPhase sid res st xs).2.settings = st.settings := by
  induction xs generalizing res st with
  | nil => simp [persistPhase_nil]
  | cons x xs ih =>
    rw [persistPhase_cons]
    have hs := persistStep_store_frame sid (res, st) x
    have ht := ih (persistStep sid (res, st) x).1 (persistStep sid (res, st) x).2
    exact ⟨ht.1.trans hs.1, ht.2.trans hs.2⟩

theorem persistPhase_urls_mono (sid : Nat) (xs : List (Posting × Option Int))
    (res : SourceResult) (st : Store) {u : Str} (h : u ∈ urlsOf st) :
    u ∈ urlsOf (persistPhase sid res st xs).2 := by
  induction xs generalizing res st with
  | nil => simpa [persistPhase_nil] using h
  | cons x xs ih =>
    rw [persistPhase_cons]
    exact ih _ _ (persistStep_urls_mono sid (res, st) x h)

theorem persistPhase_skipped_mono (sid : Nat) (xs : List (Posting × Option Int))
    (res : SourceResult) (st : Store) {info : JobInfo} (h : info ∈ res.skipped_jobs) :
    info ∈ (persistPhase sid res st xs).1.skipped_jobs := by
  induction xs generalizing res st with
  | nil => simpa [persistPhase_nil] using h
  | cons x xs ih =>
    rw [persistPhase_cons]
    exact ih _ _ (persistStep_skipped_mono sid (res, st) x h)

theorem persistPhase_nodup (sid : Nat) (xs : List (Posting × Option Int))
    (res : SourceResult) (st : Store) (h : (urlsOf st).Nodup) :
    (urlsOf (persistPhase sid res st xs).2).Nodup := by
  induction xs generalizing res st with
  | nil => simpa [persistPhase_nil] using h
  | cons x xs ih =>
    rw [persistPhase_cons]
    exact ih _ _ (persistStep_nodup sid (res, st) x h)

theorem persistPhase_x_url_mem (sid : Nat) (xs : List (Posting × Option Int))
    (res : SourceResult) (st : Store) {x : Posting × Option Int} (h : x ∈ xs) :
    x.1.url ∈ urlsOf (persistPhase sid res st xs).2 := by
  induction xs generalizing res st with
  | nil => simp at h
  | cons y ys ih =>
    rw [persistPhase_cons]
    rcases List.mem_cons.mp h with h | h
    · subst h
      exact persistPhase_urls_mono sid ys _ _ (persistStep_url_mem sid (res, st) x)
    · exact ih _ _ h

theorem persistPhase_added_src (sid : Nat) (xs : List (Posting × Option Int))
    (res : SourceResult) (st : Store) {info : JobInfo}
    (h : info ∈ (persistPhase sid res st xs).1.added_jobs) :
    info ∈ res.added_jobs ∨ ∃ x ∈ xs, info.url = x.1.url := by
  induction xs generalizing res st with
  | nil => exact Or.inl (by simpa [persistPhase_nil] using h)
  | cons x xs ih =>
    rw [persistPhase_cons] at h
    rcases ih _ _ h with h1 | ⟨x', hx', hu⟩
    · rcases persistStep_added sid (res, st) x with he | ⟨e, he, heu⟩
      · rw [he] at h1
        exact Or.inl h1
      · rw [he] at h1
        rcases List.mem_append.mp h1 with h2 | h2
        · exact Or.inl h2
        · simp only [List.mem_singleton] at h2
          subst h2
          exact Or.inr ⟨x, List.mem_cons_self x xs, heu⟩
    · exact Or.inr ⟨x', List.mem_cons_of_mem x hx', hu⟩

theorem persistStep_count_le (sid : Nat) (acc : SourceResult × Store) (x : Posting × Option Int)
    {u : Str} (h : (urlsOf acc.2).count u ≤ 1) :
    (urlsOf (persistStep sid acc x).2).count u ≤ 1 := by
  rcases hf : findJobByUrl acc.2 x.1.url with _ | j
  · have hnm : x.1.url ∉ urlsOf acc.2 := (findJobByUrl_none_iff _ _).mp hf
    have hkey : (urlsOf (persistStep sid acc x).2) = urlsOf acc.2 ++ [x.1.url] := by
      cases hl : is_low_score x.2 <;>
        simp [persistStep, hf, hl, insertJob, urlsOf]
    rw [hkey, List.count_append]
    by_cases hu : u = x.1.url
    · subst hu
      have h0 : (urlsOf acc.2).count x.1.url = 0 := List.count_eq_zero.mpr hnm
      simp [h0]
    · have h0 : List.count u [x.1.url] = 0 := List.count_eq_zero.mpr (by simpa using hu)
      rw [h0]
      simpa using h
  · simpa [persistStep, hf] using h



theorem persistPhase_count_le (sid : Nat) (xs : List (Posting × Option Int))
    (res : SourceResult) (st : Store) {u : Str} (h : (urlsOf st).count u ≤ 1) :
    (urlsOf (persistPhase sid res st xs).2).count u ≤ 1 := by
  induction xs generalizing res st with
  | nil => simpa [persistPhase_nil] using h
  | cons x xs ih =>
    rw [persistPhase_cons]
    exact ih _ _ (persistStep_count_le sid (res, st) x h)

theorem partStep_known (st : Store) (acc : List Posting × SourceResult) (dj : Posting)
    {j : JobRec} (h : batchExisting st dj.url = some j) :
    partStep st acc dj =
      (acc.1,
       { acc.2 with
          jobs_skipped := acc.2.jobs_skipped + 1,
          skipped_jobs := acc.2.skipped_jobs ++
            [⟨some j.id, j.title, j.company, j.url, j.score,
              some "already_exists".data⟩] }) := by
  simp [partStep, h]

theorem partStep_new (st : Store) (acc : List Posting × SourceResult) (dj : Posting)
    (h : batchExisting st dj.url = none) :
    partStep st acc dj = (acc.1 ++ [dj], acc.2) := by
  simp [partStep, h]

theorem partStep_res_frame (st : Store) (acc : List Posting × SourceResult) (dj : Posting) :
    (partStep st acc dj).2.source_id = acc.2.source_id ∧
    (partStep st acc dj).2.source_name = acc.2.source_name ∧
    (partStep st acc dj).2.source_url = acc.2.source_url ∧
    (partStep st acc dj).2.jobs_found = acc.2.jobs_found ∧
    (partStep st acc dj).2.added_jobs = acc.2.added_jobs ∧
    (partStep st acc dj).2.error = acc.2.error := by
  rcases hf : batchExisting st dj.url with _ | j <;> simp [partStep, hf]

theorem partStep_skipped_mono (st : Store) (acc : List Posting × SourceResult) (dj : Posting)
    {info : JobInfo} (h : info ∈ acc.2.skipped_jobs) :
    info ∈ (partStep st acc dj).2.skipped_jobs := by
  rcases hf : batchExisting st dj.url with _ | j <;> simp [partStep, hf, h]

theorem partStep_new_mono (st : Store) (acc : List Posting × SourceResult) (dj : Posting)
    {p : Posting} (h : p ∈ acc.1) : p ∈ (partStep st acc dj).1 := by
  rcases hf : batchExisting st dj.url with _ | j <;> simp [partStep, hf, h]

theorem partitionPhase_nil (st : Store) (res : SourceResult) :
    partitionPhase st res [] = ([], res) := rfl

theorem partitionPhase_foldl_cons (st : Store) (acc : List Posting × SourceResult)
    (dj : Posting) (d : List Posting) :
    (dj :: d).foldl (partStep st) acc = d.foldl (partStep st) (partStep st acc dj) := by
  simp

theorem partition_foldl_res_frame (st : Store) (d : List Posting)
    (acc : List Posting × SourceResult) :
    (d.foldl (partStep st) acc).2.source_id = acc.2.source_id ∧
    (d.foldl (partStep st) acc).2.source_name = acc.2.source_name ∧
    (d.foldl (partStep st) acc).2.source_url = acc.2.source_url ∧
    (d.foldl (partStep st) acc).2.jobs_found = acc.2.jobs_found ∧
    (d.foldl (partStep st) acc).2.added_jobs = acc.2.added_jobs ∧
    (d.foldl (partStep st) acc).2.error = acc.2.error := by
  induction d generalizing acc with
  | nil => simp
  | cons dj d ih =>
    rw [partitionPhase_foldl_cons]
    have hs := partStep_res_frame st acc dj
    have ht := ih (partStep st acc dj)
    exact ⟨ht.1.trans hs.1, ht.2.1.trans hs.2.1, ht.2.2.1.trans hs.2.2.1,
           ht.2.2.2.1.trans hs.2.2.2.1, ht.2.2.2.2.1.trans hs.2.2.2.2.1,
           ht.2.2.2.2.2.trans hs.2.2.2.2.2⟩

theorem partition_foldl_skipped_mono (st : Store) (d : List Posting)
    (acc : List Posting × SourceResult) {info : JobInfo} (h : info ∈ acc.2.skipped_jobs) :
    info ∈ (d.foldl (partStep st) acc).2.skipped_jobs := by
  induction d generalizing acc with
  | nil => simpa using h
  | cons dj d ih =>
    rw [partitionPhase_foldl_cons]
    exact ih _ (partStep_skipped_mono st acc dj h)

theorem partition_foldl_new_sub (st : Store) (d : List Posting) :
    ∀ (acc : List Posting × SourceResult) {p : Posting},
      p ∈ (d.foldl (partStep st) acc).1 → p ∈ acc.1 ∨ p ∈ d := by
  induction d with
  | nil =>
    intro acc p h
    exact Or.inl (by simpa using h)
  | cons dj d ih =>
    intro acc p h
    rw [partitionPhase_foldl_cons] at h
    rcases ih (partStep st acc dj) h with h1 | h1
    · rcases hf : batchExisting st dj.url with _ | j
      · rw [partStep_new st acc dj hf] at h1
        rcases List.mem_append.mp h1 with h2 | h2
        · exact Or.inl h2
        · simp only [List.mem_singleton] at h2
          subst h2
          exact Or.inr (List.mem_cons_self p d)
      · rw [partStep_known st acc dj hf] at h1
        exact Or.inl h1
    · exact Or.inr (List.mem_cons_of_mem dj h1)

theorem partition_foldl_known_skip (st : Store) (d : List Posting) :
    ∀ (acc : List Posting × SourceResult) {dj : Posting}, dj ∈ d →
      dj.url ∈ urlsOf st →
      ∃ info ∈ (d.foldl (partStep st) acc).2.skipped_jobs,
        info.url = dj.url ∧ info.skip_reason = some "already_exists".data := by
  induction d with
  | nil =>
    intro acc dj hmem
    simp at hmem
  | cons x d ih =>
    intro acc dj hmem hknown
    rw [partitionPhase_foldl_cons]
    rcases List.mem_cons.mp hmem with h | h
    · subst h
      have hs : (batchExisting st dj.url).isSome = true :=
        (batchExisting_isSome_iff st dj.url).mpr hknown
      rcases hj : batchExisting st dj.url with _ | j
      · rw [hj] at hs
        simp at hs
      · have hju : j.url = dj.url := batchExisting_some_url hj
        refine ⟨⟨some j.id, j.title, j.company, j.url, j.score, some "already_exists".data⟩,
          ?_, hju, rfl⟩
        apply partition_foldl_skipped_mono
        rw [partStep_known st acc dj hj]
        simp
    · exact ih (partStep st acc x) h hknown

theorem partition_foldl_new_mono (st : Store) (d : List Posting)
    (acc : List Posting × SourceResult) {p : Posting} (h : p ∈ acc.1) :
    p ∈ (d.foldl (partStep st) acc).1 := by
  induction d generalizing acc with
  | nil => simpa using h
  | cons dj d ih =>
    rw [partitionPhase_foldl_cons]
    exact ih _ (partStep_new_mono st acc dj h)

theorem partition_foldl_new_or_known (st : Store) (d : List Posting) :
    ∀ (acc : List Posting × SourceResult) {dj : Posting}, dj ∈ d →
      dj.url ∈ urlsOf st ∨ dj ∈ (d.foldl (partStep st) acc).1 := by
  induction d with
  | nil =>
    intro acc dj hmem
    simp at hmem
  | cons x d ih =>
    intro acc dj hmem
    rw [partitionPhase_foldl_cons]
    rcases List.mem_cons.mp hmem with h | h
    · subst h
      rcases hj : batchExisting st dj.url with _ | j
      · refine Or.inr ?_
        have hin : dj ∈ (partStep st acc dj).1 := by
          rw [partStep_new st acc dj hj]
          simp
        exact partition_foldl_new_mono st d _ hin
      · exact Or.inl ((batchExisting_isSome_iff st dj.url).mp (by simp [hj]))
    · exact ih (partStep st acc x) h



/-- Everything of a `SourceRec` except `last_scraped_at`. -/
def sourceShell (s : SourceRec) : Nat × Str × Str × Option Str × Nat :=
  (s.id, s.url, s.name, s.filter_prompt, s.created_at)

theorem updateFirstSource_shell (now sid : Nat) (l : List SourceRec) :
    (updateFirstSource now sid l).map sourceShell = l.map sourceShell := by
  induction l with
  | nil => rfl
  | cons s rest ih =>
    by_cases h : s.id = sid
    · simp [updateFirstSource, h, sourceShell]
    · simp [updateFirstSource, h, ih]

theorem updateFirstSource_not_mem (now sid : Nat) (l : List SourceRec)
    (h : ∀ s ∈ l, s.id ≠ sid) : updateFirstSource now sid l = l := by
  induction l with
  | nil => rfl
  | cons s rest ih =>
    have hs := h s (by simp)
    simp [updateFirstSource, hs, ih (fun s' hs' => h s' (by simp [hs']))]

theorem updateFirstSource_decomp (now sid : Nat) (l1 : List SourceRec) (s : SourceRec)
    (l2 : List SourceRec) (hs : s.id = sid) (h1 : ∀ s' ∈ l1, s'.id ≠ sid) :
    updateFirstSource now sid (l1 ++ s :: l2)
      = l1 ++ { s with last_scraped_at := some now } :: l2 := by
  induction l1 with
  | nil => simp [updateFirstSource, hs]
  | cons a rest ih =>
    have ha := h1 a (by simp)
    simp only [List.cons_append, updateFirstSource, beq_iff_eq, if_neg ha]
    exact congrArg (fun t => a :: t) (ih (fun s' hs' => h1 s' (by simp [hs'])))

theorem updateFirstSource_toSourceData (now sid : Nat) (l : List SourceRec) :
    (updateFirstSource now sid l).map toSourceData = l.map toSourceData := by
  induction l with
  | nil => rfl
  | cons s rest ih =>
    by_cases h : s.id = sid
    · simp [updateFirstSource, h, toSourceData]
    · simp [updateFirstSource, h, ih]

theorem urlsOf_updateSourceScanned (st : Store) (sid now : Nat) :
    urlsOf (updateSourceScanned st sid now) = urlsOf st := rfl

theorem settings_updateSourceScanned (st : Store) (sid now : Nat) :
    (updateSourceScanned st sid now).settings = st.settings := rfl

/-- Discovery depends on the store only through the settings table. -/
theorem sourceDiscovery_settings (env : ScanEnv) (st1 st2 : Store) (src : SourceData)
    (h : st1.settings = st2.settings) :
    sourceDiscovery env st1 src = sourceDiscovery env st2 src := by
  have hf : scanCombinedFilter st1 src.filter_prompt
      = scanCombinedFilter st2 src.filter_prompt := by
    simp [scanCombinedFilter, settingsGet, h]
  unfold sourceDiscovery discoverPhase
  rw [hf]

theorem scanSourceCore_err (env : ScanEnv) (sc : Bool) (src : SourceData) (st : Store)
    {e : Str} (hf : env.fetchHtml src.url = Except.error e) :
    scanSourceCore env sc src st = ({ emptyResult src with error := some e }, st) := by
  simp [scanSourceCore, hf]

theorem scanSourceCore_error_eq (env : ScanEnv) (sc : Bool) (src : SourceData) (st : Store) :
    (scanSourceCore env sc src st).1.error = fetchErrOf env src := by
  rcases hf : env.fetchHtml src.url with e | html
  · simp [scanSourceCore_err env sc src st hf, fetchErrOf, hf, emptyResult]
  · simp only [scanSourceCore, hf, fetchErrOf]
    have hp := persistPhase_frame src.id
      (scoreJobs env sc (partitionPhase st { emptyResult src with
        jobs_found := (discoverPhase env st src html).length } (discoverPhase env st src html)).1)
      (partitionPhase st { emptyResult src with
        jobs_found := (discoverPhase env st src html).length } (discoverPhase env st src html)).2 st
    rw [hp.2.2.2.2]
    have hq := partition_foldl_res_frame st (discoverPhase env st src html)
      ([], { emptyResult src with jobs_found := (discoverPhase env st src html).length })
    simpa [partitionPhase, emptyResult] using hq.2.2.2.2.2

theorem scanSourceCore_ids (env : ScanEnv) (sc : Bool) (src : SourceData) (st : Store) :
    (scanSourceCore env sc src st).1.source_id = src.id ∧
    (scanSourceCore env sc src st).1.source_name = src.name ∧
    (scanSourceCore env sc src st).1.source_url = src.url := by
  rcases hf : env.fetchHtml src.url with e | html
  · simp [scanSourceCore_err env sc src st hf, emptyResult]
  · simp only [scanSourceCore, hf]
    have hp := persistPhase_frame src.id
      (scoreJobs env sc (partitionPhase st { emptyResult src with
        jobs_found := (discoverPhase env st src html).length } (discoverPhase env st src html)).1)
      (partitionPhase st { emptyResult src with
        jobs_found := (discoverPhase env st src html).length } (discoverPhase env st src html)).2 st
    have hq := partition_foldl_res_frame st (discoverPhase env st src html)
      ([], { emptyResult src with jobs_found := (discoverPhase env st src html).length })
    refine ⟨hp.1.trans ?_, hp.2.1.trans ?_, hp.2.2.1.trans ?_⟩
    · simpa [partitionPhase, emptyResult] using hq.1
    · simpa [partitionPhase, emptyResult] using hq.2.1
    · simpa [partitionPhase, emptyResult] using hq.2.2.1



theorem scanSourceCore_settings (env : ScanEnv) (sc : Bool) (src : SourceData) (st : Store) :
    (scanSourceCore env sc src st).2.settings = st.settings := by
  rcases hf : env.fetchHtml src.url with e | html
  · rw [scanSourceCore_err env sc src st hf]
  · simp only [scanSourceCore, hf, settings_updateSourceScanned]
    exact (persistPhase_store_frame _ _ _ _).2

theorem scanSourceCore_sources_ok (env : ScanEnv) (sc : Bool) (src : SourceData) (st : Store)
    {html : Str} (hf : env.fetchHtml src.url = Except.ok html) :
    (scanSourceCore env sc src st).2.sources
      = updateFirstSource env.now src.id st.sources := by
  simp only [scanSourceCore, hf, updateSourceScanned]
  exact congrArg (updateFirstSource env.now src.id) (persistPhase_store_frame _ _ _ _).1

theorem scanSourceCore_urls_mono (env : ScanEnv) (sc : Bool) (src : SourceData) (st : Store)
    {u : Str} (h : u ∈ urlsOf st) : u ∈ urlsOf (scanSourceCore env sc src st).2 := by
  rcases hf : env.fetchHtml src.url with e | html
  · rw [scanSourceCore_err env sc src st hf]
    exact h
  · simp only [scanSourceCore, hf, urlsOf_updateSourceScanned]
    exact persistPhase_urls_mono _ _ _ _ h

theorem scanSourceCore_nodup (env : ScanEnv) (sc : Bool) (src : SourceData) (st : Store)
    (h : (urlsOf st).Nodup) : (urlsOf (scanSourceCore env sc src st).2).Nodup := by
  rcases hf : env.fetchHtml src.url with e | html
  · rw [scanSourceCore_err env sc src st hf]
    exact h
  · simp only [scanSourceCore, hf, urlsOf_updateSourceScanned]
    exact persistPhase_nodup _ _ _ _ h

theorem scanSourceCore_count_le (env : ScanEnv) (sc : Bool) (src : SourceData) (st : Store)
    {u : Str} (h : (urlsOf st).count u ≤ 1) :
    (urlsOf (scanSourceCore env sc src st).2).count u ≤ 1 := by
  rcases hf : env.fetchHtml src.url with e | html
  · rw [scanSourceCore_err env sc src st hf]
    exact h
  · simp only [scanSourceCore, hf, urlsOf_updateSourceScanned]
    exact persistPhase_count_le _ _ _ _ h

theorem scanSourceCore_discovered_mem (env : ScanEnv) (sc : Bool) (src : SourceData)
    (st : Store) {dj : Posting} (h : dj ∈ sourceDiscovery env st src) :
    dj.url ∈ urlsOf (scanSourceCore env sc src st).2 := by
  rcases hf : env.fetchHtml src.url with e | html
  · simp [sourceDiscovery, hf] at h
  · simp only [sourceDiscovery, hf] at h
    simp only [scanSourceCore, hf, urlsOf_updateSourceScanned]
    rcases partition_foldl_new_or_known st (discoverPhase env st src html)
        ([], { emptyResult src with jobs_found := (discoverPhase env st src html).length })
        h with hk | hn
    · exact persistPhase_urls_mono _ _ _ _ hk
    · have hx : (dj, if sc then env.jobScore dj.url else none)
          ∈ scoreJobs env sc (partitionPhase st
            { emptyResult src with jobs_found := (discoverPhase env st src html).length }
            (discoverPhase env st src html)).1 := by
        exact List.mem_map_of_mem _ hn
      exact persistPhase_x_url_mem _ _ _ _ hx

theorem scanSourceCore_added_src (env : ScanEnv) (sc : Bool) (src : SourceData)
    (st : Store) {info : JobInfo}
    (h : info ∈ (scanSourceCore env sc src st).1.added_jobs) :
    ∃ dj ∈ sourceDiscovery env st src, info.url = dj.url := by
  rcases hf : env.fetchHtml src.url with e | html
  · rw [scanSourceCore_err env sc src st hf] at h
    simp [emptyResult] at h
  · simp only [scanSourceCore, hf] at h
    rcases persistPhase_added_src _ _ _ _ h with h1 | ⟨x, hx, hu⟩
    · have := (partition_foldl_res_frame st (discoverPhase env st src html)
        ([], { emptyResult src with
          jobs_found := (discoverPhase env st src html).length })).2.2.2.2.1
      rw [partitionPhase] at h1
      rw [this] at h1
      simp [emptyResult] at h1
    · rcases List.mem_map.mp hx with ⟨dj, hdj, hdjx⟩
      have hsub := partition_foldl_new_sub st (discoverPhase env st src html) _ hdj
      rcases hsub with h2 | h2
      · simp at h2
      · refine ⟨dj, ?_, ?_⟩
        · simpa [sourceDiscovery, hf] using h2
        · rw [hu, ← hdjx]

theorem scanSourceCore_known_skip (env : ScanEnv) (sc : Bool) (src : SourceData)
    (st : Store) {dj : Posting} (hmem : dj ∈ sourceDiscovery env st src)
    (hknown : dj.url ∈ urlsOf st) :
    ∃ info ∈ (scanSourceCore env sc src st).1.skipped_jobs,
      info.url = dj.url ∧ info.skip_reason = some "already_exists".data := by
  rcases hf : env.fetchHtml src.url with e | html
  · simp [sourceDiscovery, hf] at hmem
  · simp only [sourceDiscovery, hf] at hmem
    simp only [scanSourceCore, hf]
    rcases partition_foldl_known_skip st (discoverPhase env st src html)
        ([], { emptyResult src with jobs_found := (discoverPhase env st src html).length })
        hmem hknown with ⟨info, hin, hiu, hir⟩
    exact ⟨info, persistPhase_skipped_mono _ _ _ _ hin, hiu, hir⟩

theorem process_single_source_result (env : ScanEnv) (sc : Bool) (src : SourceData)
    (store : Store) (st : ScanState) :
    (process_single_source env sc src store st).1 = (scanSourceCore env sc src store).1 ∧
    (process_single_source env sc src store st).2.1 = (scanSourceCore env sc src store).2 :=
  ⟨rfl, rfl⟩

theorem process_single_source_state (env : ScanEnv) (sc : Bool) (src : SourceData)
    (store : Store) (st : ScanState) :
    (process_single_source env sc src store st).2.2.sources_completed
      = st.sources_completed + 1 ∧
    (process_single_source env sc src store st).2.2.error = st.error ∧
    (process_single_source env sc src store st).2.2.source_results = st.source_results ∧
    (process_single_source env sc src store st).2.2.sources_total = st.sources_total ∧
    (process_single_source env sc src store st).2.2.is_scanning = st.is_scanning ∧
    (process_single_source env sc src store st).2.2.current_step = st.current_step := by
  rcases hf : env.fetchHtml src.url with e | html <;>
    simp [process_single_source, hf, enterActive, exitActive]



theorem scanSourceCore_sources_data (env : ScanEnv) (sc : Bool) (src : SourceData)
    (st : Store) :
    (scanSourceCore env sc src st).2.sources.map toSourceData
      = st.sources.map toSourceData := by
  rcases hf : env.fetchHtml src.url with e | html
  · rw [scanSourceCore_err env sc src st hf]
  · rw [scanSourceCore_sources_ok env sc src st hf, updateFirstSource_toSourceData]

theorem discoveryStep_eq (env : ScanEnv) (sc : Bool) (acc : List SourceResult)
    (store : Store) (st : ScanState) (src : SourceData) :
    discoveryStep env sc (acc, store, st) src
      = (acc ++ [(scanSourceCore env sc src store).1],
         (scanSourceCore env sc src store).2,
         (process_single_source env sc src store st).2.2) := rfl

theorem discovery_fold_store (env : ScanEnv) (sc : Bool) (data : List SourceData) :
    ∀ (acc : List SourceResult) (store : Store) (st : ScanState),
      (data.foldl (discoveryStep env sc) (acc, store, st)).2.1.settings = store.settings ∧
      (data.foldl (discoveryStep env sc) (acc, store, st)).2.1.sources.map toSourceData
        = store.sources.map toSourceData ∧
      (∀ u ∈ urlsOf store,
        u ∈ urlsOf (data.foldl (discoveryStep env sc) (acc, store, st)).2.1) := by
  induction data with
  | nil =>
    intro acc store st
    exact ⟨rfl, rfl, fun u hu => hu⟩
  | cons src data ih =>
    intro acc store st
    simp only [List.foldl_cons, discoveryStep_eq]
    have hi := ih (acc ++ [(scanSourceCore env sc src store).1])
      (scanSourceCore env sc src store).2 (process_single_source env sc src store st).2.2
    refine ⟨hi.1.trans (scanSourceCore_settings env sc src store), ?_, ?_⟩
    · exact hi.2.1.trans (scanSourceCore_sources_data env sc src store)
    · intro u hu
      exact hi.2.2 u (scanSourceCore_urls_mono env sc src store hu)

theorem discovery_fold_nodup (env : ScanEnv) (sc : Bool) (data : List SourceData) :
    ∀ (acc : List SourceResult) (store : Store) (st : ScanState),
      (urlsOf store).Nodup →
      (urlsOf (data.foldl (discoveryStep env sc) (acc, store, st)).2.1).Nodup := by
  induction data with
  | nil =>
    intro acc store st h
    exact h
  | cons src data ih =>
    intro acc store st h
    simp only [List.foldl_cons, discoveryStep_eq]
    exact ih _ _ _ (scanSourceCore_nodup env sc src store h)

theorem discovery_fold_count_le (env : ScanEnv) (sc : Bool) (data : List SourceData) :
    ∀ (acc : List SourceResult) (store : Store) (st : ScanState) {u : Str},
      (urlsOf store).count u ≤ 1 →
      (urlsOf (data.foldl (discoveryStep env sc) (acc, store, st)).2.1).count u ≤ 1 := by
  induction data with
  | nil =>
    intro acc store st u h
    exact h
  | cons src data ih =>
    intro acc store st u h
    simp only [List.foldl_cons, discoveryStep_eq]
    exact ih _ _ _ (scanSourceCore_count_le env sc src store h)

theorem discovery_fold_completed (env : ScanEnv) (sc : Bool) (data : List SourceData) :
    ∀ (acc : List SourceResult) (store : Store) (st : ScanState),
      (data.foldl (discoveryStep env sc) (acc, store, st)).2.2.sources_completed
        = st.sources_completed + data.length := by
  induction data with
  | nil =>
    intro acc store st
    simp
  | cons src data ih =>
    intro acc store st
    simp only [List.foldl_cons, discoveryStep_eq]
    rw [ih]
    rw [(process_single_source_state env sc src store st).1]
    simp only [List.length_cons]
    omega

theorem discovery_fold_state (env : ScanEnv) (sc : Bool) (data : List SourceData) :
    ∀ (acc : List SourceResult) (store : Store) (st : ScanState),
      (data.foldl (discoveryStep env sc) (acc, store, st)).2.2.error = st.error ∧
      (data.foldl (discoveryStep env sc) (acc, store, st)).2.2.source_results
        = st.source_results ∧
      (data.foldl (discoveryStep env sc) (acc, store, st)).2.2.sources_total
        = st.sources_total ∧
      (data.foldl (discoveryStep env sc) (acc, store, st)).2.2.is_scanning
        = st.is_scanning ∧
      (data.foldl (discoveryStep env sc) (acc, store, st)).2.2.current_step
        = st.current_step := by
  induction data with
  | nil =>
    intro acc store st
    exact ⟨rfl, rfl, rfl, rfl, rfl⟩
  | cons src data ih =>
    intro acc store st
    simp only [List.foldl_cons, discoveryStep_eq]
    have hs := process_single_source_state env sc src store st
    have hi := ih (acc ++ [(scanSourceCore env sc src store).1])
      (scanSourceCore env sc src store).2 (process_single_source env sc src store st).2.2
    exact ⟨hi.1.trans hs.2.1, hi.2.1.trans hs.2.2.1, hi.2.2.1.trans hs.2.2.2.1,
           hi.2.2.2.1.trans hs.2.2.2.2.1, hi.2.2.2.2.trans hs.2.2.2.2.2⟩



/-- The fan-in over the source tasks: each source contributes exactly one
result, computed by `scanSourceCore` against the store state its task saw;
that intermediate store has the same settings as the initial one and at
least its urls, and everything the source discovered is persisted by the
time the fold ends. -/
theorem discovery_fold_results (env : ScanEnv) (sc : Bool) (data : List SourceData) :
    ∀ (acc : List SourceResult) (store : Store) (st : ScanState),
      ∃ rs, (data.foldl (discoveryStep env sc) (acc, store, st)).1 = acc ++ rs ∧
        rs.length = data.length ∧
        ∀ i (h1 : i < rs.length) (h2 : i < data.length),
          ∃ stMid : Store,
            stMid.settings = store.settings ∧
            (∀ u ∈ urlsOf store, u ∈ urlsOf stMid) ∧
            rs.get ⟨i, h1⟩ = (scanSourceCore env sc (data.get ⟨i, h2⟩) stMid).1 ∧
            (∀ u ∈ urlsOf stMid,
              u ∈ urlsOf (data.foldl (discoveryStep env sc) (acc, store, st)).2.1) ∧
            (∀ dj ∈ sourceDiscovery env stMid (data.get ⟨i, h2⟩),
              dj.url ∈ urlsOf (data.foldl (discoveryStep env sc) (acc, store, st)).2.1) := by
  induction data with
  | nil =>
    intro acc store st
    exact ⟨[], by simp, rfl, fun i h1 h2 => absurd h1 (by simp)⟩
  | cons src data ih =>
    intro acc store st
    simp only [List.foldl_cons, discoveryStep_eq]
    rcases ih (acc ++ [(scanSourceCore env sc src store).1])
        (scanSourceCore env sc src store).2
        (process_single_source env sc src store st).2.2 with
      ⟨rs', hrs1, hrs2, hrs3⟩
    refine ⟨(scanSourceCore env sc src store).1 :: rs', ?_, by simp [hrs2], ?_⟩
    · rw [hrs1]
      simp
    · intro i h1 h2
      cases i with
      | zero =>
        refine ⟨store, rfl, fun u hu => hu, by simp, ?_, ?_⟩
        · intro u hu
          exact (discovery_fold_store env sc data _ _ _).2.2 u
            (scanSourceCore_urls_mono env sc src store hu)
        · intro dj hdj
          exact (discovery_fold_store env sc data _ _ _).2.2 _
            (scanSourceCore_discovered_mem env sc src store hdj)
      | succ i =>
        have h1' : i < rs'.length := by
          simpa using h1
        have h2' : i < data.length := by
          simpa using h2
        rcases hrs3 i h1' h2' with ⟨stMid, hm1, hm2, hm3, hm4, hm5⟩
        refine ⟨stMid, hm1.trans (scanSourceCore_settings env sc src store), ?_, ?_, hm4, hm5⟩
        · intro u hu
          exact hm2 u (scanSourceCore_urls_mono env sc src store hu)
        · simpa using hm3



/-! ## Concrete sample objects used by witnesses and counterexamples -/

def emptyStore : Store := ⟨[], [], [], 1⟩

def samplePosting : Posting := ⟨"T".data, "C".data, "https://a.com/j".data⟩

def sampleSrc : SourceData := ⟨7, "S".data, "https://s.com/q".data, none⟩

def sampleSourceRec : SourceRec := ⟨1, "https://s.com/q".data, "S".data, none, none, 0⟩

def sampleStoreWithSource : Store := ⟨[], [sampleSourceRec], [], 1⟩

def sampleJob : JobRec :=
  (insertJob emptyStore samplePosting.url samplePosting.company samplePosting.title
    "suggested".data (some 49) (some 7)).1

def sampleStore1 : Store :=
  (insertJob emptyStore samplePosting.url samplePosting.company samplePosting.title
    "suggested".data (some 49) (some 7)).2

/-! ## C5 -/

/-- **C5.** For a new candidate reaching the save loop with its URL absent
from the store, exactly one `Job` row is created (status `suggested`,
carrying the candidate's score); a non-null score strictly below 50
classifies the candidate as skipped with reason `low_score` (yet persisted),
any other score (50 or above, or null) classifies it as added; and
`is_low_score` holds exactly for scores strictly below 50, so a posting
scored 49 is skipped/low_score and one scored 50 is added. -/
theorem C5_low_score_classification (sid : Nat) (res : SourceResult) (st : Store)
    (dj : Posting) (score : Option Int) (h : findJobByUrl st dj.url = none) :
    (persistStep sid (res, st) (dj, score)).2.jobs
        = st.jobs ++ [⟨st.nextJobId, dj.url, dj.company, dj.title, "suggested".data,
                       score, some sid⟩] ∧
    (is_low_score score = true →
      (persistStep sid (res, st) (dj, score)).1.jobs_added = res.jobs_added ∧
      (persistStep sid (res, st) (dj, score)).1.jobs_skipped = res.jobs_skipped + 1 ∧
      (persistStep sid (res, st) (dj, score)).1.skipped_jobs
        = res.skipped_jobs ++ [⟨some st.nextJobId, dj.title, dj.company, dj.url, score,
            some "low_score".data⟩] ∧
      (persistStep sid (res, st) (dj, score)).1.added_jobs = res.added_jobs) ∧
    (is_low_score score = false →
      (persistStep sid (res, st) (dj, score)).1.jobs_added = res.jobs_added + 1 ∧
      (persistStep sid (res, st) (dj, score)).1.jobs_skipped = res.jobs_skipped ∧
      (persistStep sid (res, st) (dj, score)).1.added_jobs
        = res.added_jobs ++ [⟨some st.nextJobId, dj.title, dj.company, dj.url, score,
            none⟩] ∧
      (persistStep sid (res, st) (dj, score)).1.skipped_jobs = res.skipped_jobs) ∧
    (∀ s : Int, is_low_score (some s) = true ↔ s < 50) := by
  refine ⟨?_, ?_, ?_, ?_⟩
  · cases hl : is_low_score score <;> simp [persistStep, h, hl, insertJob]
  · intro hl
    simp [persistStep, h, hl, insertJob]
  · intro hl
    simp [persistStep, h, hl, insertJob]
  · intro s
    simp [is_low_score]

/-- Witness for C5 at a posting scored 49 and one scored 50. -/
theorem C5_low_score_classification_witness :
    ((persistStep 7 (emptyResult sampleSrc, emptyStore) (samplePosting, some 49)).1.jobs_skipped
        = (emptyResult sampleSrc).jobs_skipped + 1 ∧
     (persistStep 7 (emptyResult sampleSrc, emptyStore) (samplePosting, some 49)).1.jobs_added
        = (emptyResult sampleSrc).jobs_added) ∧
    (persistStep 7 (emptyResult sampleSrc, emptyStore) (samplePosting, some 50)).1.jobs_added
        = (emptyResult sampleSrc).jobs_added + 1 := by
  refine ⟨⟨?_, ?_⟩, ?_⟩
  · exact ((C5_low_score_classification 7 (emptyResult sampleSrc) emptyStore samplePosting
      (some 49) (by decide)).2.1 (by decide)).2.1
  · exact ((C5_low_score_classification 7 (emptyResult sampleSrc) emptyStore samplePosting
      (some 49) (by decide)).2.1 (by decide)).1
  · exact ((C5_low_score_classification 7 (emptyResult sampleSrc) emptyStore samplePosting
      (some 50) (by decide)).2.2.1 (by decide)).1

/-! ## C10 -/

/-- **C10.** Within-batch duplicate protection: the sequential save loop's
re-query by URL immediately before each insert keeps at most one `Job`
record per URL (a URL with at most one record before the loop has at most
one after, whatever candidate multiset the loop processes); and when the
re-query finds an existing record the candidate is recorded as skipped with
reason `already_exists` carrying the existing record's score, the store is
untouched and nothing is added. -/
theorem C10_within_batch_dedup (sid : Nat) (xs : List (Posting × Option Int))
    (res : SourceResult) (st : Store) :
    (∀ u : Str, (urlsOf st).count u ≤ 1 →
      (urlsOf (persistPhase sid res st xs).2).count u ≤ 1) ∧
    (∀ (dj : Posting) (score : Option Int) (j : JobRec) (res' : SourceResult) (st' : Store),
      findJobByUrl st' dj.url = some j →
      persistStep sid (res', st') (dj, score)
        = ({ res' with
              jobs_skipped := res'.jobs_skipped + 1,
              skipped_jobs := res'.skipped_jobs ++
                [⟨some j.id, j.title, j.company, j.url, j.score,
                  some "already_exists".data⟩] }, st')) := by
  constructor
  · intro u h
    exact persistPhase_count_le sid xs res st h
  · intro dj score j res' st' h
    simp [persistStep, h]

/-- Witness for C10: a batch containing the same URL twice against an empty
store, and the loop body against a store already holding that URL. -/
theorem C10_within_batch_dedup_witness :
    (urlsOf (persistPhase 7 (emptyResult sampleSrc) emptyStore
        [(samplePosting, none), (samplePosting, none)]).2).count samplePosting.url ≤ 1 ∧
    persistStep 7 (emptyResult sampleSrc, sampleStore1) (samplePosting, none)
      = ({ emptyResult sampleSrc with
            jobs_skipped := (emptyResult sampleSrc).jobs_skipped + 1,
            skipped_jobs := (emptyResult sampleSrc).skipped_jobs ++
              [⟨some sampleJob.id, sampleJob.title, sampleJob.company, sampleJob.url,
                sampleJob.score, some "already_exists".data⟩] }, sampleStore1) :=
  ⟨(C10_within_batch_dedup 7 [(samplePosting, none), (samplePosting, none)]
      (emptyResult sampleSrc) emptyStore).1 samplePosting.url (by decide),
   (C10_within_batch_dedup 7 [] (emptyResult sampleSrc) emptyStore).2
      samplePosting none sampleJob (emptyResult sampleSrc) sampleStore1 (by decide)⟩

/-! ## C7 -/

/-- **C7.** Code bug: the global filter is stored through the setting API
under the key `global_filter_prompt`, but the scan's in-line filter
construction reads the key `global_filter`; with the global filter
configured as "Remote only" and a source with no filter of its own, the
text handed to the extraction agent is the fallback default, not the
configured global filter. -/
theorem C7_global_filter_key_mismatch :
    settingsGet (set_global_filter emptyStore "Remote only".data) GLOBAL_FILTER_KEY
      = some "Remote only".data ∧
    scanCombinedFilter (set_global_filter emptyStore "Remote only".data) none
      = "Find all software engineering and technical jobs".data ∧
    "Find all software engineering and technical jobs".data ≠ "Remote only".data :=
  ⟨by decide, by decide, by decide⟩

/-! ## C3 -/

/-- **C3** counterexample: a refresh request arriving with a scan in flight
(`is_scanning = true`) against a store with one configured source is
accepted (`200`, one source handed to the background task), not rejected:
`refresh_suggestions` performs no `is_scanning` check at all. -/
theorem C3_counterexample :
    refresh_suggestions sampleStoreWithSource true none = Except.ok (1, none) := rfl

/-- **C3** (amended): the refresh handler's decision is independent of the
scan-status flag (there is no check-and-set), and a request is rejected
(HTTP 400) exactly when the resolved source set is empty. -/
theorem C3_refresh_no_scan_check (store : Store) (b1 b2 : Bool)
    (ids : Option (List Nat)) :
    refresh_suggestions store b1 ids = refresh_suggestions store b2 ids ∧
    (refresh_suggestions store b1 ids = Except.error 400
      ↔ resolveSources store ids = []) := by
  refine ⟨rfl, ?_⟩
  rcases ids with _ | l
  · simp only [refresh_suggestions, resolveSources]
    by_cases h : store.sources.length = 0
    · simp [h, List.length_eq_zero.mp h]
    · have : ¬store.sources = [] := fun hh => h (by simp [hh])
      simp [h, this]
  · by_cases he : l.isEmpty
    · simp only [refresh_suggestions, resolveSources, he, if_pos rfl]
      by_cases h : store.sources.length = 0
      · simp [he, h, List.length_eq_zero.mp h]
      · have : ¬store.sources = [] := fun hh => h (by simp [hh])
        simp [he, h, this]
    · simp only [refresh_suggestions, resolveSources, he]
      by_cases h : (store.sources.filter (fun s => l.contains s.id)).length = 0
      · simp [he, h, List.length_eq_zero.mp h]
      · have hne : ¬store.sources.filter (fun s => l.contains s.id) = [] :=
          fun hh => h (by rw [hh]; rfl)
        simp [he, h, hne]



/-! ## Orchestrator-level helpers -/

/-- Whether scoring runs: the master resume loaded non-empty (the code's
`if scoring_agent and master_resume`). -/
def scoringEnabledOf (env : ScanEnv) : Bool :=
  match env.loadMasterResume with
  | ResumeLoad.ok c => !c.isEmpty
  | _ => false

/-- Off the main path — no sources resolved, or a top-level exception
(resume hard-failure or agent construction) — the store is untouched and no
per-source results are produced. -/
theorem process_job_discovery_offpath (env : ScanEnv) (ids : Option (List Nat))
    (store : Store)
    (h : resolveSources store ids = [] ∨ (∃ e, env.loadMasterResume = ResumeLoad.err e) ∨
         ∃ e, env.agentInit = Except.error e) :
    (process_job_discovery env ids store).1 = store ∧
    (process_job_discovery env ids store).2.source_results = [] := by
  rcases h with h | ⟨e, h⟩ | ⟨e, h⟩
  · simp [process_job_discovery, h, finalize, resetState]
  · by_cases hs : resolveSources store ids = []
    · simp [process_job_discovery, hs, finalize, resetState]
    · simp [process_job_discovery, hs, h, finalize, resetState]
  · by_cases hs : resolveSources store ids = []
    · simp [process_job_discovery, hs, finalize, resetState]
    · rcases hr : env.loadMasterResume with c | _ | e' <;>
        simp [process_job_discovery, hs, hr, h, finalize, resetState]

/-- The fan-in fold of the main path, as one abbreviation. -/
def mainRun (env : ScanEnv) (ids : Option (List Nat)) (store : Store) :
    List SourceResult × Store × ScanState :=
  ((resolveSources store ids).map toSourceData).foldl
    (discoveryStep env (scoringEnabledOf env))
    ([], store,
     { resetState with
         sources_total := ((resolveSources store ids).map toSourceData).length,
         current_step := some "scanning sources in parallel".data })

/-- On the main path the orchestrator is the fan-in fold. -/
theorem process_job_discovery_main (env : ScanEnv) (ids : Option (List Nat))
    (store : Store) (hne : ¬resolveSources store ids = [])
    (hr : ∀ e, env.loadMasterResume ≠ ResumeLoad.err e)
    (ha : env.agentInit = Except.ok ()) :
    process_job_discovery env ids store
      = ((mainRun env ids store).2.1,
         finalize
           { (mainRun env ids store).2.2 with
               source_results := (mainRun env ids store).2.2.source_results
                 ++ (mainRun env ids store).1 }) := by
  rcases hm : env.loadMasterResume with c | _ | e
  · simp [process_job_discovery, hne, hm, ha, scoringEnabledOf, mainRun]
  · simp [process_job_discovery, hne, hm, ha, scoringEnabledOf, mainRun]
  · exact absurd hm (hr e)



/-- Every exit of the orchestrator goes through the `finally` block. -/
theorem process_job_discovery_finalized (env : ScanEnv) (ids : Option (List Nat))
    (store : Store) :
    ∃ st', (process_job_discovery env ids store).2 = finalize st' := by
  unfold process_job_discovery
  by_cases hs : (resolveSources store ids).isEmpty <;>
    rcases hm : env.loadMasterResume with c | _ | e <;>
      rcases ha : env.agentInit with u | e' <;>
        simp [hs, hm, ha]

def sampleEnvOk : ScanEnv :=
  { fetchHtml := fun _ => Except.ok "h".data
    discover := fun _ _ => []
    jobScore := fun _ => none
    now := 3
    loadMasterResume := ResumeLoad.notFound
    agentInit := Except.ok () }

def sampleEnvAgentFail : ScanEnv :=
  { sampleEnvOk with
      agentInit := Except.error "ValueError: GOOGLE_API_KEY not found".data }

/-- **C2** counterexample: with one configured source and agent construction
raising (the documented `ValueError` without an API key) — an unexpected
exception outside all task boundaries, caught by the orchestrator's
top-level handler — the finalizer still runs (`is_scanning` false,
`current_step` "completed"), but `sources_completed` is 0 while
`sources_total` is 1, refuting the claim's "at that point sources_completed
equals sources_total". -/
theorem C2_counterexample :
    (process_job_discovery sampleEnvAgentFail none sampleStoreWithSource).2.is_scanning
      = false ∧
    (process_job_discovery sampleEnvAgentFail none sampleStoreWithSource).2.current_step
      = some "completed".data ∧
    (process_job_discovery sampleEnvAgentFail none sampleStoreWithSource).2.sources_completed
      = 0 ∧
    (process_job_discovery sampleEnvAgentFail none sampleStoreWithSource).2.sources_total
      = 1 ∧
    ¬((process_job_discovery sampleEnvAgentFail none
          sampleStoreWithSource).2.sources_completed
        = (process_job_discovery sampleEnvAgentFail none
            sampleStoreWithSource).2.sources_total) := by
  refine ⟨rfl, rfl, rfl, rfl, by decide⟩

/-- **C2** (amended): finalization is unconditional — after any invocation of
the orchestrator `is_scanning` is false and `current_step` is "completed" —
and whenever no exception occurs outside the task boundaries (the resume
load does not hard-fail and agent construction succeeds),
`sources_completed` equals `sources_total`, whatever the mix of per-task
outcomes. -/
theorem C2_finalization (env : ScanEnv) (ids : Option (List Nat)) (store : Store) :
    (process_job_discovery env ids store).2.is_scanning = false ∧
    (process_job_discovery env ids store).2.current_step = some "completed".data ∧
    ((∀ e, env.loadMasterResume ≠ ResumeLoad.err e) → env.agentInit = Except.ok () →
      (process_job_discovery env ids store).2.sources_completed
        = (process_job_discovery env ids store).2.sources_total) := by
  obtain ⟨st', hfin⟩ := process_job_discovery_finalized env ids store
  refine ⟨by rw [hfin]; rfl, by rw [hfin]; rfl, ?_⟩
  intro hr ha
  by_cases hs : resolveSources store ids = []
  · simp [process_job_discovery, hs, finalize, resetState]
  · rw [process_job_discovery_main env ids store hs hr ha]
    show (mainRun env ids store).2.2.sources_completed
        = (mainRun env ids store).2.2.sources_total
    simp only [mainRun]
    rw [discovery_fold_completed env (scoringEnabledOf env)
        ((resolveSources store ids).map toSourceData) [] store _]
    rw [(discovery_fold_state env (scoringEnabledOf env)
        ((resolveSources store ids).map toSourceData) [] store _).2.2.1]
    simp [resetState]

/-- Witness for C2 with a benign environment and one source. -/
theorem C2_finalization_witness :
    (process_job_discovery sampleEnvOk none sampleStoreWithSource).2.is_scanning = false ∧
    (process_job_discovery sampleEnvOk none sampleStoreWithSource).2.sources_completed
      = (process_job_discovery sampleEnvOk none sampleStoreWithSource).2.sources_total :=
  ⟨(C2_finalization sampleEnvOk none sampleStoreWithSource).1,
   (C2_finalization sampleEnvOk none sampleStoreWithSource).2.2
     (fun _ h => ResumeLoad.noConfusion h) rfl⟩



theorem mainRun_results_nil (env : ScanEnv) (ids : Option (List Nat)) (store : Store) :
    (mainRun env ids store).2.2.source_results = [] := by
  simp only [mainRun]
  rw [(discovery_fold_state env (scoringEnabledOf env)
      ((resolveSources store ids).map toSourceData) [] store _).2.1]
  rfl

theorem process_job_discovery_source_results (env : ScanEnv) (ids : Option (List Nat))
    (store : Store) (hne : ¬resolveSources store ids = [])
    (hr : ∀ e, env.loadMasterResume ≠ ResumeLoad.err e)
    (ha : env.agentInit = Except.ok ()) :
    (process_job_discovery env ids store).2.source_results = (mainRun env ids store).1 := by
  rw [process_job_discovery_main env ids store hne hr ha]
  show (mainRun env ids store).2.2.source_results ++ (mainRun env ids store).1
      = (mainRun env ids store).1
  rw [mainRun_results_nil]
  rfl

theorem process_job_discovery_error_none (env : ScanEnv) (ids : Option (List Nat))
    (store : Store) (hr : ∀ e, env.loadMasterResume ≠ ResumeLoad.err e)
    (ha : env.agentInit = Except.ok ()) :
    (process_job_discovery env ids store).2.error = none := by
  by_cases hs : resolveSources store ids = []
  · simp [process_job_discovery, hs, finalize, resetState]
  · rw [process_job_discovery_main env ids store hs hr ha]
    show (mainRun env ids store).2.2.error = none
    simp only [mainRun]
    rw [(discovery_fold_state env (scoringEnabledOf env)
        ((resolveSources store ids).map toSourceData) [] store _).1]
    rfl

/-- **C1.** Fault isolation: with the orchestrator's own top-level steps
succeeding (resume load does not hard-fail, agents construct), every
resolved source contributes exactly one `SourceScanResult`, in which the
`error` field is exactly that source's own fetch failure — an exception
inside one source's task is captured in its own result and neither
propagates out of `scan_source` nor disturbs the remaining sources, each of
which still completes with `error = none` — and the scan-level status
`error` stays null when only per-source failures occur. -/
theorem C1_fault_isolation (env : ScanEnv) (ids : Option (List Nat)) (store : Store)
    (hr : ∀ e, env.loadMasterResume ≠ ResumeLoad.err e)
    (ha : env.agentInit = Except.ok ()) :
    (process_job_discovery env ids store).2.error = none ∧
    ∃ rs, (process_job_discovery env ids store).2.source_results = rs ∧
      rs.length = (resolveSources store ids).length ∧
      ∀ i (h1 : i < rs.length) (h2 : i < (resolveSources store ids).length),
        (rs.get ⟨i, h1⟩).source_id = ((resolveSources store ids).get ⟨i, h2⟩).id ∧
        (rs.get ⟨i, h1⟩).error
          = fetchErrOf env (toSourceData ((resolveSources store ids).get ⟨i, h2⟩)) := by
  refine ⟨process_job_discovery_error_none env ids store hr ha, ?_⟩
  by_cases hs : resolveSources store ids = []
  · refine ⟨[], (process_job_discovery_offpath env ids store (Or.inl hs)).2, by simp [hs], ?_⟩
    intro i h1 h2
    exact absurd h1 (by simp)
  · rcases discovery_fold_results env (scoringEnabledOf env)
        ((resolveSources store ids).map toSourceData) [] store
        { resetState with
            sources_total := ((resolveSources store ids).map toSourceData).length,
            current_step := some "scanning sources in parallel".data } with
      ⟨rs, hrs1, hrs2, hrs3⟩
    have hmain : (mainRun env ids store).1 = rs := by
      simp only [mainRun]
      rw [hrs1]
      rfl
    refine ⟨rs, ?_, by simpa using hrs2, ?_⟩
    · rw [process_job_discovery_source_results env ids store hs hr ha, hmain]
    · intro i h1 h2
      have h2' : i < ((resolveSources store ids).map toSourceData).length := by
        simpa using h2
      rcases hrs3 i h1 h2' with ⟨stMid, _, _, hm3, _, _⟩
      have hget : ((resolveSources store ids).map toSourceData).get ⟨i, h2'⟩
          = toSourceData ((resolveSources store ids).get ⟨i, h2⟩) := by
        simp [List.get_eq_getElem, List.getElem_map]
      rw [hm3, hget]
      exact ⟨(scanSourceCore_ids env (scoringEnabledOf env) _ stMid).1,
             scanSourceCore_error_eq env (scoringEnabledOf env) _ stMid⟩

def sampleEnvMixed : ScanEnv :=
  { sampleEnvOk with
      fetchHtml := fun u =>
        if u == "https://a.com/s".data then Except.error "boom".data
        else Except.ok "h".data }

def sampleStore2 : Store :=
  ⟨[], [⟨1, "https://a.com/s".data, "A".data, none, none, 0⟩,
        ⟨2, "https://b.com/s".data, "B".data, none, none, 0⟩], [], 1⟩

/-- Witness for C1: two sources, the first of which always fails to fetch. -/
theorem C1_fault_isolation_witness :
    (process_job_discovery sampleEnvMixed none sampleStore2).2.error = none ∧
    ∃ rs, (process_job_discovery sampleEnvMixed none sampleStore2).2.source_results = rs ∧
      rs.length = (resolveSources sampleStore2 none).length ∧
      ∀ i (h1 : i < rs.length) (h2 : i < (resolveSources sampleStore2 none).length),
        (rs.get ⟨i, h1⟩).source_id = ((resolveSources sampleStore2 none).get ⟨i, h2⟩).id ∧
        (rs.get ⟨i, h1⟩).error
          = fetchErrOf sampleEnvMixed
              (toSourceData ((resolveSources sampleStore2 none).get ⟨i, h2⟩)) :=
  C1_fault_isolation sampleEnvMixed none sampleStore2
    (fun _ h => ResumeLoad.noConfusion h) rfl



/-- **C9** counterexample: two sources submitted in order [id 1, id 2] with
completion times 5 and 1 complete in the order [id 2, id 1], yet the
status's `source_results` lists them as [1, 2] — the submission order, which
differs from the completion order.  (`asyncio.gather` returns results in
argument order, and the collection loop appends them in that order.) -/
theorem C9_counterexample :
    completionOrder [5, 1] = [1, 0] ∧
    ((process_job_discovery sampleEnvOk none sampleStore2).2.source_results.map
        (fun r => r.source_id)) = [1, 2] ∧
    ([1, 0].map
        (fun i => (sampleStore2.sources.getD i ⟨0, [], [], none, none, 0⟩).id)) = [2, 1] ∧
    ¬(([1, 2] : List Nat) = [2, 1]) := by
  refine ⟨by decide, rfl, by decide, by decide⟩

/-- **C9** (amended): when the orchestrator's top-level steps succeed, the
entries of `source_results` are in the sources' input/submission order —
their source ids are exactly the resolved sources' ids in order — because
`asyncio.gather` preserves argument order; callers cannot read completion
order off this list. -/
theorem C9_results_in_submission_order (env : ScanEnv) (ids : Option (List Nat))
    (store : Store) (hr : ∀ e, env.loadMasterResume ≠ ResumeLoad.err e)
    (ha : env.agentInit = Except.ok ()) :
    (process_job_discovery env ids store).2.source_results.map (fun r => r.source_id)
      = (resolveSources store ids).map (fun s => s.id) := by
  by_cases hs : resolveSources store ids = []
  · rw [(process_job_discovery_offpath env ids store (Or.inl hs)).2, hs]
    rfl
  · rcases discovery_fold_results env (scoringEnabledOf env)
        ((resolveSources store ids).map toSourceData) [] store
        { resetState with
            sources_total := ((resolveSources store ids).map toSourceData).length,
            current_step := some "scanning sources in parallel".data } with
      ⟨rs, hrs1, hrs2, hrs3⟩
    have hmain : (mainRun env ids store).1 = rs := by
      simp only [mainRun]
      rw [hrs1]
      rfl
    rw [process_job_discovery_source_results env ids store hs hr ha, hmain]
    apply List.ext_getElem
    · simpa using hrs2
    · intro i hi1 hi2
      have h1 : i < rs.length := by simpa using hi1
      have h2 : i < ((resolveSources store ids).map toSourceData).length :=
        hrs2 ▸ h1
      rcases hrs3 i h1 h2 with ⟨stMid, _, _, hm3, _, _⟩
      have hgl : rs.get ⟨i, h1⟩ = rs[i] := List.get_eq_getElem rs ⟨i, h1⟩
      rw [List.getElem_map, List.getElem_map, ← hgl, hm3]
      have hget : ((resolveSources store ids).map toSourceData).get ⟨i, h2⟩
          = toSourceData ((resolveSources store ids).get ⟨i, by simpa using h2⟩) := by
        simp [List.get_eq_getElem, List.getElem_map]
      rw [hget]
      exact (scanSourceCore_ids env (scoringEnabledOf env) _ stMid).1

/-- Witness for C9 at the two-source store. -/
theorem C9_results_in_submission_order_witness :
    (process_job_discovery sampleEnvOk none sampleStore2).2.source_results.map
        (fun r => r.source_id)
      = (resolveSources sampleStore2 none).map (fun s => s.id) :=
  C9_results_in_submission_order sampleEnvOk none sampleStore2
    (fun _ h => ResumeLoad.noConfusion h) rfl



/-- **C8.** `last_scanned_at` update and frame condition: within one source
pass, the `last_scraped_at` stamp happens exactly when the source's
fetch+discover phase completed — a fetch failure leaves the source table
untouched, while on success the first source row with the scanned id gets
`last_scraped_at := now` whatever the per-job scrape/score outcomes were
(the environment's per-job outcomes are arbitrary here) — and the scan
mutates no other field of any `Source` record (ids, urls, names, filter
prompts and creation times are all preserved, and rows without the scanned
id are untouched). -/
theorem C8_last_scanned_frame (env : ScanEnv) (sc : Bool) (src : SourceData) (st : Store) :
    ((∃ e, env.fetchHtml src.url = Except.error e) →
      (scanSourceCore env sc src st).2.sources = st.sources) ∧
    ((∃ html, env.fetchHtml src.url = Except.ok html) →
      (scanSourceCore env sc src st).2.sources
        = updateFirstSource env.now src.id st.sources) ∧
    ((updateFirstSource env.now src.id st.sources).map sourceShell
       = st.sources.map sourceShell) ∧
    ((∀ s ∈ st.sources, s.id ≠ src.id) →
      updateFirstSource env.now src.id st.sources = st.sources) ∧
    (∀ (l1 : List SourceRec) (s : SourceRec) (l2 : List SourceRec),
      st.sources = l1 ++ s :: l2 → s.id = src.id → (∀ s' ∈ l1, s'.id ≠ src.id) →
      updateFirstSource env.now src.id st.sources
        = l1 ++ { s with last_scraped_at := some env.now } :: l2) := by
  refine ⟨?_, ?_, updateFirstSource_shell env.now src.id st.sources,
    updateFirstSource_not_mem env.now src.id st.sources, ?_⟩
  · rintro ⟨e, he⟩
    rw [scanSourceCore_err env sc src st he]
  · rintro ⟨html, hh⟩
    exact scanSourceCore_sources_ok env sc src st hh
  · intro l1 s l2 hdec hs h1
    rw [hdec]
    exact updateFirstSource_decomp env.now src.id l1 s l2 hs h1

/-- Witness for C8: a successful pass over the one-source store stamps that
source. -/
theorem C8_last_scanned_frame_witness :
    (scanSourceCore sampleEnvOk true (toSourceData sampleSourceRec)
        sampleStoreWithSource).2.sources
      = updateFirstSource sampleEnvOk.now (toSourceData sampleSourceRec).id
          sampleStoreWithSource.sources ∧
    updateFirstSource sampleEnvOk.now (toSourceData sampleSourceRec).id
        sampleStoreWithSource.sources
      = [] ++ { sampleSourceRec with last_scraped_at := some sampleEnvOk.now } :: [] :=
  ⟨(C8_last_scanned_frame sampleEnvOk true (toSourceData sampleSourceRec)
      sampleStoreWithSource).2.1 ⟨"h".data, rfl⟩,
   (C8_last_scanned_frame sampleEnvOk true (toSourceData sampleSourceRec)
      sampleStoreWithSource).2.2.2.2 [] sampleSourceRec [] rfl rfl
     (by intro s' h; simp at h)⟩



theorem filter_contains_congr (l : List Nat) :
    ∀ (s1 s2 : List SourceRec), s1.map toSourceData = s2.map toSourceData →
      (s1.filter (fun s => l.contains s.id)).map toSourceData
        = (s2.filter (fun s => l.contains s.id)).map toSourceData := by
  intro s1
  induction s1 with
  | nil =>
    intro s2 h
    cases s2 with
    | nil => rfl
    | cons a t =>
      rw [List.map_nil, List.map_cons] at h
      exact List.noConfusion h
  | cons a t ih =>
    intro s2 h
    cases s2 with
    | nil =>
      rw [List.map_cons, List.map_nil] at h
      exact List.noConfusion h
    | cons a2 t2 =>
      simp only [List.map_cons, List.cons.injEq] at h
      have hid : a.id = a2.id := congrArg SourceData.id h.1
      by_cases hc : l.contains a.id = true
      · have hc2 : l.contains a2.id = true := hid ▸ hc
        rw [List.filter_cons_of_pos (p := fun s : SourceRec => l.contains s.id) hc,
            List.filter_cons_of_pos (p := fun s : SourceRec => l.contains s.id) hc2]
        simp only [List.map_cons, List.cons.injEq]
        exact ⟨h.1, ih t2 h.2⟩
      · have hc2 : ¬(l.contains a2.id = true) := fun hh => hc (hid ▸ hh)
        rw [List.filter_cons_of_neg (p := fun s : SourceRec => l.contains s.id) (by simpa using hc),
            List.filter_cons_of_neg (p := fun s : SourceRec => l.contains s.id) (by simpa using hc2)]
        exact ih t2 h.2

theorem resolveSources_data_congr (ids : Option (List Nat)) (st1 st2 : Store)
    (h : st1.sources.map toSourceData = st2.sources.map toSourceData) :
    (resolveSources st1 ids).map toSourceData
      = (resolveSources st2 ids).map toSourceData := by
  rcases ids with _ | l
  · exact h
  · by_cases he : l.isEmpty
    · simpa [resolveSources, he] using h
    · simp only [resolveSources, he, Bool.false_eq_true, if_false]
      exact filter_contains_congr l st1.sources st2.sources h

theorem mainRun_store_props (env : ScanEnv) (ids : Option (List Nat)) (store : Store) :
    (mainRun env ids store).2.1.settings = store.settings ∧
    (mainRun env ids store).2.1.sources.map toSourceData
      = store.sources.map toSourceData ∧
    (∀ u ∈ urlsOf store, u ∈ urlsOf (mainRun env ids store).2.1) ∧
    ((urlsOf store).Nodup → (urlsOf (mainRun env ids store).2.1).Nodup) := by
  simp only [mainRun]
  exact ⟨(discovery_fold_store _ _ _ _ _ _).1, (discovery_fold_store _ _ _ _ _ _).2.1,
    fun u hu => (discovery_fold_store _ _ _ _ _ _).2.2 u hu,
    fun h => discovery_fold_nodup _ _ _ _ _ _ h⟩

/-- The store after a scan: settings untouched, source rows unchanged up to
`last_scraped_at`, persisted urls only grow, and url-uniqueness is
preserved. -/
theorem process_job_discovery_store (env : ScanEnv) (ids : Option (List Nat))
    (store : Store) :
    (process_job_discovery env ids store).1.settings = store.settings ∧
    (process_job_discovery env ids store).1.sources.map toSourceData
      = store.sources.map toSourceData ∧
    (∀ u ∈ urlsOf store, u ∈ urlsOf (process_job_discovery env ids store).1) ∧
    ((urlsOf store).Nodup → (urlsOf (process_job_discovery env ids store).1).Nodup) := by
  by_cases hs : resolveSources store ids = []
  · rw [(process_job_discovery_offpath env ids store (Or.inl hs)).1]
    exact ⟨rfl, rfl, fun u hu => hu, fun h => h⟩
  · rcases hm : env.loadMasterResume with c | _ | e
    · rcases ha : env.agentInit with e' | u
      · rw [(process_job_discovery_offpath env ids store (Or.inr (Or.inr ⟨e', ha⟩))).1]
        exact ⟨rfl, rfl, fun u hu => hu, fun h => h⟩
      · rw [process_job_discovery_main env ids store hs
          (fun x hx => by rw [hm] at hx; cases hx) ha]
        exact mainRun_store_props env ids store
    · rcases ha : env.agentInit with e' | u
      · rw [(process_job_discovery_offpath env ids store (Or.inr (Or.inr ⟨e', ha⟩))).1]
        exact ⟨rfl, rfl, fun u hu => hu, fun h => h⟩
      · rw [process_job_discovery_main env ids store hs
          (fun x hx => by rw [hm] at hx; cases hx) ha]
        exact mainRun_store_props env ids store
    · rw [(process_job_discovery_offpath env ids store (Or.inr (Or.inl ⟨e, hm⟩))).1]
      exact ⟨rfl, rfl, fun u hu => hu, fun h => h⟩



theorem C4_main (env : ScanEnv) (ids : Option (List Nat)) (store : Store)
    (hs1 : ¬resolveSources store ids = [])
    (hr : ∀ e, env.loadMasterResume ≠ ResumeLoad.err e)
    (ha : env.agentInit = Except.ok ()) :
    ∃ rs1 rs2,
      (process_job_discovery env ids store).2.source_results = rs1 ∧
      (process_job_discovery env ids
          (process_job_discovery env ids store).1).2.source_results = rs2 ∧
      rs1.length = rs2.length ∧
      ∀ i (h1 : i < rs1.length) (h2 : i < rs2.length),
        ∀ info ∈ (rs1.get ⟨i, h1⟩).added_jobs,
          ∃ info2 ∈ (rs2.get ⟨i, h2⟩).skipped_jobs,
            info2.url = info.url ∧ info2.skip_reason = some "already_exists".data := by
  have hst := process_job_discovery_store env ids store
  have hdata : (resolveSources (process_job_discovery env ids store).1 ids).map toSourceData
      = (resolveSources store ids).map toSourceData :=
    resolveSources_data_congr ids (process_job_discovery env ids store).1 store hst.2.1
  have hs2 : ¬resolveSources (process_job_discovery env ids store).1 ids = [] := by
    intro h
    apply hs1
    have h0 : ((resolveSources store ids).map toSourceData) = [] := by
      rw [← hdata, h]
      rfl
    exact List.map_eq_nil_iff.mp h0
  rcases discovery_fold_results env (scoringEnabledOf env)
      ((resolveSources store ids).map toSourceData) [] store
      { resetState with
          sources_total := ((resolveSources store ids).map toSourceData).length,
          current_step := some "scanning sources in parallel".data } with
    ⟨rs1, h11, h12, h13⟩
  rcases discovery_fold_results env (scoringEnabledOf env)
      ((resolveSources (process_job_discovery env ids store).1 ids).map toSourceData) []
      (process_job_discovery env ids store).1
      { resetState with
          sources_total := ((resolveSources (process_job_discovery env ids store).1 ids).map
            toSourceData).length,
          current_step := some "scanning sources in parallel".data } with
    ⟨rs2, h21, h22, h23⟩
  have hm1 : (mainRun env ids store).1 = rs1 := by
    simp only [mainRun]
    rw [h11]
    rfl
  have hm2 : (mainRun env ids (process_job_discovery env ids store).1).1 = rs2 := by
    simp only [mainRun]
    rw [h21]
    rfl
  have hstore1main : (process_job_discovery env ids store).1 = (mainRun env ids store).2.1 := by
    rw [process_job_discovery_main env ids store hs1 hr ha]
  refine ⟨rs1, rs2, ?_, ?_, ?_, ?_⟩
  · rw [process_job_discovery_source_results env ids store hs1 hr ha, hm1]
  · rw [process_job_discovery_source_results env ids
      (process_job_discovery env ids store).1 hs2 hr ha, hm2]
  · rw [h12, h22, hdata]
  · intro i h1 h2 info hinfo
    have h1d : i < ((resolveSources store ids).map toSourceData).length := h12 ▸ h1
    have h2d : i < ((resolveSources (process_job_discovery env ids store).1 ids).map
        toSourceData).length := h22 ▸ h2
    rcases h13 i h1 h1d with ⟨stA, hA1, hA2, hA3, hA4, hA5⟩
    rcases h23 i h2 h2d with ⟨stB, hB1, hB2, hB3, hB4, hB5⟩
    have hsrc : ((resolveSources (process_job_discovery env ids store).1 ids).map
          toSourceData).get ⟨i, h2d⟩
        = ((resolveSources store ids).map toSourceData).get ⟨i, h1d⟩ := by
      rw [List.get_eq_getElem, List.get_eq_getElem]
      exact List.getElem_of_eq hdata h2d
    rw [hA3] at hinfo
    rcases scanSourceCore_added_src env (scoringEnabledOf env) _ stA hinfo with
      ⟨dj, hdj, hdju⟩
    have hdjurl1 : dj.url ∈ urlsOf (mainRun env ids store).2.1 := by
      have := hA5 dj hdj
      simpa only [mainRun] using this
    have hdjurl : dj.url ∈ urlsOf (process_job_discovery env ids store).1 := by
      rw [hstore1main]
      exact hdjurl1
    have hsettings : stB.settings = stA.settings := by
      rw [hB1, hst.1, ← hA1]
    have hdisc : sourceDiscovery env stB
        (((resolveSources store ids).map toSourceData).get ⟨i, h1d⟩)
        = sourceDiscovery env stA
        (((resolveSources store ids).map toSourceData).get ⟨i, h1d⟩) :=
      sourceDiscovery_settings env stB stA _ hsettings
    have hdjB : dj ∈ sourceDiscovery env stB
        (((resolveSources (process_job_discovery env ids store).1 ids).map
          toSourceData).get ⟨i, h2d⟩) := by
      rw [hsrc, hdisc]
      exact hdj
    have hknownB : dj.url ∈ urlsOf stB := hB2 dj.url hdjurl
    rcases scanSourceCore_known_skip env (scoringEnabledOf env) _ stB hdjB hknownB with
      ⟨info2, hin2, hiu2, hir2⟩
    refine ⟨info2, ?_, ?_, hir2⟩
    · rw [hB3]
      exact hin2
    · rw [hiu2, hdju]

/-- **C4** counterexample: the store itself does not enforce uniqueness of
`Job.url` — the `Job` table of `database.py` declares no unique constraint
on `url`, and two inserts with the same url leave two records carrying it.
The idempotence of the claim therefore does not rest on store-enforced
uniqueness. -/
theorem C4_counterexample :
    ((insertJob (insertJob emptyStore "https://a.com/j".data "C".data "T".data
          "suggested".data none none).2 "https://a.com/j".data "C".data "T".data
          "suggested".data none none).2.jobs.map (fun j => j.url)).count
        "https://a.com/j".data = 2 := by
  decide

/-- **C4** (amended): running the scan twice in succession against an
unchanged source set never produces two Job records with the same url, and
the second run reports every posting added by the first run as skipped with
reason `already_exists` — guaranteed by the scanner's own batch pre-check
and pre-insert re-check, not by a store constraint (the `Job` table declares
none on `url`). -/
theorem C4_idempotence (env : ScanEnv) (ids : Option (List Nat)) (store : Store)
    (hnd : (urlsOf store).Nodup) :
    (urlsOf (process_job_discovery env ids
        (process_job_discovery env ids store).1).1).Nodup ∧
    ∃ rs1 rs2,
      (process_job_discovery env ids store).2.source_results = rs1 ∧
      (process_job_discovery env ids
          (process_job_discovery env ids store).1).2.source_results = rs2 ∧
      rs1.length = rs2.length ∧
      ∀ i (h1 : i < rs1.length) (h2 : i < rs2.length),
        ∀ info ∈ (rs1.get ⟨i, h1⟩).added_jobs,
          ∃ info2 ∈ (rs2.get ⟨i, h2⟩).skipped_jobs,
            info2.url = info.url ∧ info2.skip_reason = some "already_exists".data := by
  refine ⟨(process_job_discovery_store env ids (process_job_discovery env ids store).1).2.2.2
    ((process_job_discovery_store env ids store).2.2.2 hnd), ?_⟩
  by_cases hs1 : resolveSources store ids = []
  · have hoff1 := process_job_discovery_offpath env ids store (Or.inl hs1)
    have hs2 : resolveSources (process_job_discovery env ids store).1 ids = [] := by
      rw [hoff1.1]
      exact hs1
    have hoff2 := process_job_discovery_offpath env ids
      (process_job_discovery env ids store).1 (Or.inl hs2)
    exact ⟨[], [], hoff1.2, hoff2.2, rfl, fun i h1 h2 => absurd h1 (by simp)⟩
  · rcases hm : env.loadMasterResume with c | _ | e
    · rcases ha : env.agentInit with e' | u
      · have hoff1 := process_job_discovery_offpath env ids store
          (Or.inr (Or.inr ⟨e', ha⟩))
        have hoff2 := process_job_discovery_offpath env ids
          (process_job_discovery env ids store).1 (Or.inr (Or.inr ⟨e', ha⟩))
        exact ⟨[], [], hoff1.2, hoff2.2, rfl, fun i h1 h2 => absurd h1 (by simp)⟩
      · exact C4_main env ids store hs1 (fun x hx => by rw [hm] at hx; cases hx) ha
    · rcases ha : env.agentInit with e' | u
      · have hoff1 := process_job_discovery_offpath env ids store
          (Or.inr (Or.inr ⟨e', ha⟩))
        have hoff2 := process_job_discovery_offpath env ids
          (process_job_discovery env ids store).1 (Or.inr (Or.inr ⟨e', ha⟩))
        exact ⟨[], [], hoff1.2, hoff2.2, rfl, fun i h1 h2 => absurd h1 (by simp)⟩
      · exact C4_main env ids store hs1 (fun x hx => by rw [hm] at hx; cases hx) ha
    · have hoff1 := process_job_discovery_offpath env ids store (Or.inr (Or.inl ⟨e, hm⟩))
      have hoff2 := process_job_discovery_offpath env ids
        (process_job_discovery env ids store).1 (Or.inr (Or.inl ⟨e, hm⟩))
      exact ⟨[], [], hoff1.2, hoff2.2, rfl, fun i h1 h2 => absurd h1 (by simp)⟩

/-- Witness for C4 at a concrete store with url-unique jobs. -/
theorem C4_idempotence_witness :
    (urlsOf (process_job_discovery sampleEnvOk none
        (process_job_discovery sampleEnvOk none sampleStoreWithSource).1).1).Nodup :=
  (C4_idempotence sampleEnvOk none sampleStoreWithSource (by decide)).1


end JobScan
